import Mathlib

/-!
Shallow embedding of `src/values/length.rs` (dimensional-value subsystem of a
CSS value-processing engine).  Machine `f32` magnitudes are modelled as exact
rationals (`ℚ`); the source's exact floating-point comparisons (`== 0.0`,
`< 0.0`) become exact rational comparisons.  The generic `Calc<V>` expression
tree from `values/calc.rs` is not part of `src/`; its two node kinds
(`Value`, `Sum`) are taken from the spec (§3 "ExprTree<T>") and every
function of that missing file that is needed here is modelled from the
spec's words and marked as such.

The mutually recursive fold/build addition of the source is embedded with an
explicit fuel parameter (`addRecF` / `addBuildF` / `addF`).  Rust resolves
the `res.add(...)` reattachment calls inside `add_recursive` and the
`a.add(b)` unwrap calls inside the private `add` to the *inherent* private
`add` (inherent methods shadow the `std::ops::Add` impl), i.e. to the
build-only phase with no renewed fold attempt; the embedding mirrors that
resolution.  The development proves that the fuel bound `phiA` always
suffices, so the fuel-free wrapper `Length.add` computes exactly the
recursion of the source.

IEEE `f32` carries a negative zero that the rational model cannot
distinguish from `0`; the dedicated magnitude type `Fz` (signed zero plus
exact nonzero values) refines the zero tests of the serializer and of the
addition's identity elision to settle the signed-zero behavior.
-/

/-- Pixels per inch, from `const PX_PER_IN: f32 = 96.0`. -/
def pxPerIn : ℚ := 96

/-- Pixels per centimeter, `PX_PER_IN / 2.54`. -/
def pxPerCm : ℚ := pxPerIn / (254 / 100)

/-- Pixels per millimeter, `PX_PER_CM / 10.0`. -/
def pxPerMm : ℚ := pxPerCm / 10

/-- Pixels per quarter-millimeter, `PX_PER_CM / 40.0`. -/
def pxPerQ : ℚ := pxPerCm / 40

/-- Pixels per point, `PX_PER_IN / 72.0`. -/
def pxPerPt : ℚ := pxPerIn / 72

/-- Pixels per pica, `PX_PER_IN / 6.0`. -/
def pxPerPc : ℚ := pxPerIn / 6

/-- Absolute length units, `enum AbsoluteLength`: a unit tag plus a magnitude. -/
inductive AbsoluteLength where
  | Px (value : ℚ)
  | In (value : ℚ)
  | Cm (value : ℚ)
  | Mm (value : ℚ)
  | Q (value : ℚ)
  | Pt (value : ℚ)
  | Pc (value : ℚ)
deriving DecidableEq, Repr

/-- Relative length units, `enum RelativeLength`. -/
inductive RelativeLength where
  | Em (value : ℚ)
  | Ex (value : ℚ)
  | Ch (value : ℚ)
  | Rem (value : ℚ)
  | Vw (value : ℚ)
  | Vh (value : ℚ)
  | Vmin (value : ℚ)
  | Vmax (value : ℚ)
deriving DecidableEq, Repr

/-- Conversion to canonical pixels, `AbsoluteLength::to_px`. -/
def AbsoluteLength.to_px : AbsoluteLength → ℚ
  | .Px v => v
  | .In v => v * pxPerIn
  | .Cm v => v * pxPerCm
  | .Mm v => v * pxPerMm
  | .Q v => v * pxPerQ
  | .Pt v => v * pxPerPt
  | .Pc v => v * pxPerPc

/-- Magnitude and unit suffix, `AbsoluteLength::to_unit_value`. -/
def AbsoluteLength.to_unit_value : AbsoluteLength → ℚ × String
  | .Px v => (v, "px")
  | .In v => (v, "in")
  | .Cm v => (v, "cm")
  | .Mm v => (v, "mm")
  | .Q v => (v, "q")
  | .Pt v => (v, "pt")
  | .Pc v => (v, "pc")

/-- Stored magnitude of an absolute literal; the per-variant projection that the
source's `PartialEq<f32>` / `PartialOrd<f32>` impls match out. -/
def AbsoluteLength.val : AbsoluteLength → ℚ
  | .Px v => v | .In v => v | .Cm v => v | .Mm v => v
  | .Q v => v | .Pt v => v | .Pc v => v

/-- Addition of absolute literals, `impl Add<AbsoluteLength> for AbsoluteLength`:
matching tags add magnitudes directly, distinct tags fold to canonical pixels. -/
def AbsoluteLength.add : AbsoluteLength → AbsoluteLength → AbsoluteLength
  | .Px a, .Px b => .Px (a + b)
  | .In a, .In b => .In (a + b)
  | .Cm a, .Cm b => .Cm (a + b)
  | .Mm a, .Mm b => .Mm (a + b)
  | .Q a, .Q b => .Q (a + b)
  | .Pt a, .Pt b => .Pt (a + b)
  | .Pc a, .Pc b => .Pc (a + b)
  | a, b => .Px (a.to_px + b.to_px)

/-- Scalar multiplication, `impl Mul<f32> for AbsoluteLength`. -/
def AbsoluteLength.mul : AbsoluteLength → ℚ → AbsoluteLength
  | .Px v, o => .Px (v * o)
  | .In v, o => .In (v * o)
  | .Cm v, o => .Cm (v * o)
  | .Mm v, o => .Mm (v * o)
  | .Q v, o => .Q (v * o)
  | .Pt v, o => .Pt (v * o)
  | .Pc v, o => .Pc (v * o)

/-- Unit tag of an absolute literal, used to state "tags match" claims. -/
def AbsoluteLength.tag : AbsoluteLength → ℕ
  | .Px _ => 0 | .In _ => 1 | .Cm _ => 2 | .Mm _ => 3
  | .Q _ => 4 | .Pt _ => 5 | .Pc _ => 6

/-- Magnitude and unit suffix, `RelativeLength::to_unit_value`. -/
def RelativeLength.to_unit_value : RelativeLength → ℚ × String
  | .Em v => (v, "em")
  | .Ex v => (v, "ex")
  | .Ch v => (v, "ch")
  | .Rem v => (v, "rem")
  | .Vw v => (v, "vw")
  | .Vh v => (v, "vh")
  | .Vmin v => (v, "vmin")
  | .Vmax v => (v, "vmax")

/-- Stored magnitude of a relative literal. -/
def RelativeLength.val : RelativeLength → ℚ
  | .Em v => v | .Ex v => v | .Ch v => v | .Rem v => v
  | .Vw v => v | .Vh v => v | .Vmin v => v | .Vmax v => v

/-- Unit tag of a relative literal. -/
def RelativeLength.tag : RelativeLength → ℕ
  | .Em _ => 0 | .Ex _ => 1 | .Ch _ => 2 | .Rem _ => 3
  | .Vw _ => 4 | .Vh _ => 5 | .Vmin _ => 6 | .Vmax _ => 7

/-- Fold attempt for relative literals, `RelativeLength::add_recursive`:
folds exactly when the unit tags match. -/
def RelativeLength.add_recursive : RelativeLength → RelativeLength → Option RelativeLength
  | .Em a, .Em b => some (.Em (a + b))
  | .Ex a, .Ex b => some (.Ex (a + b))
  | .Ch a, .Ch b => some (.Ch (a + b))
  | .Rem a, .Rem b => some (.Rem (a + b))
  | .Vw a, .Vw b => some (.Vw (a + b))
  | .Vh a, .Vh b => some (.Vh (a + b))
  | .Vmin a, .Vmin b => some (.Vmin (a + b))
  | .Vmax a, .Vmax b => some (.Vmax (a + b))
  | _, _ => none

/-- Scalar multiplication, `impl Mul<f32> for RelativeLength`. -/
def RelativeLength.mul : RelativeLength → ℚ → RelativeLength
  | .Em v, o => .Em (v * o)
  | .Ex v, o => .Ex (v * o)
  | .Ch v, o => .Ch (v * o)
  | .Rem v, o => .Rem (v * o)
  | .Vw v, o => .Vw (v * o)
  | .Vh v, o => .Vh (v * o)
  | .Vmin v, o => .Vmin (v * o)
  | .Vmax v, o => .Vmax (v * o)

mutual
/-- Tagged union `enum Length`: absolute literal, relative literal, or a calc
expression tree. -/
inductive Length where
  | Absolute (a : AbsoluteLength)
  | Relative (r : RelativeLength)
  | Calc (c : CalcLength)
deriving DecidableEq, Repr

/-- Monomorphic instance of the generic `Calc<Length>` tree.  Modelled from the
spec: `values/calc.rs` is not in `src/`; §3 gives the tree exactly two node
kinds, a literal leaf wrapper (`Value`) and a binary sum (`Sum`). -/
inductive CalcLength where
  | Value (v : Length)
  | Sum (a b : CalcLength)
deriving DecidableEq, Repr
end

mutual
/-- Tagged union `enum LengthPercentage`: a length, a percentage ratio, or a
calc tree over `LengthPercentage` leaves. -/
inductive LengthPercentage where
  | Length (l : Length)
  | Percentage (p : ℚ)
  | Calc (c : CalcLP)
deriving DecidableEq, Repr

/-- Monomorphic instance of `Calc<LengthPercentage>`.  Modelled from the spec
(§3), like `CalcLength`. -/
inductive CalcLP where
  | Value (v : LengthPercentage)
  | Sum (a b : CalcLP)
deriving DecidableEq, Repr
end

/-- Shorthand `Length::px`. -/
def Length.px (v : ℚ) : Length := .Absolute (.Px v)

/-- The literal zero, `Length::zero()`. -/
def Length.zero : Length := .Absolute (.Px 0)

/-- Optional pixel value, `Length::to_px`: only absolute literals convert. -/
def Length.to_px : Length → Option ℚ
  | .Absolute a => some a.to_px
  | _ => none

/-- Comparison result of two rationals, standing in for `f32::partial_cmp` on
finite values. -/
def cmpRat (a b : ℚ) : Ordering :=
  if a < b then .lt else if a = b then .eq else .gt

/-- Equality against a bare number, `impl PartialEq<f32> for Length`:
literal variants compare their stored magnitude, a calc expression is never
equal to a number. -/
def Length.eqNum : Length → ℚ → Bool
  | .Absolute a, o => a.val = o
  | .Relative r, o => r.val = o
  | .Calc _, _ => false

/-- Ordering against a bare number, `impl PartialOrd<f32> for Length`:
defined for literal variants only; a calc expression is unordered (`None`). -/
def Length.partialCmpNum : Length → ℚ → Option Ordering
  | .Absolute a, o => some (cmpRat a.val o)
  | .Relative r, o => some (cmpRat r.val o)
  | .Calc _, _ => none

/-- The source's `a < 0.0` test: true only when `partial_cmp` yields `Less`. -/
def Length.ltNum (l : Length) (o : ℚ) : Bool := l.partialCmpNum o == some .lt

/-- The source's `b > 0.0` test: true only when `partial_cmp` yields `Greater`. -/
def Length.gtNum (l : Length) (o : ℚ) : Bool := l.partialCmpNum o == some .gt

/-- Conversion into a calc tree, `impl Into<Calc<Length>> for Length`: an
existing tree is reused, a literal is wrapped as a leaf. -/
def Length.intoCalc : Length → CalcLength
  | .Calc c => c
  | l => .Value l

/-- Tree-level addition of two calc trees.  Modelled from the spec: §4.2 build
step 3 says two composite expressions are combined "via the tree-level
addition (concatenating/merging sums structurally)". -/
def CalcLength.addCalc (a b : CalcLength) : CalcLength := .Sum a b

/-- Equality against a bare number, `impl PartialEq<f32> for LengthPercentage`. -/
def LengthPercentage.eqNum : LengthPercentage → ℚ → Bool
  | .Length l, o => l.eqNum o
  | .Percentage p, o => p = o
  | .Calc _, _ => false

/-- Ordering against a bare number, `impl PartialOrd<f32> for LengthPercentage`. -/
def LengthPercentage.partialCmpNum : LengthPercentage → ℚ → Option Ordering
  | .Length l, o => l.partialCmpNum o
  | .Percentage p, o => some (cmpRat p o)
  | .Calc _, _ => none

/-- The `a < 0.0` test at the `LengthPercentage` level. -/
def LengthPercentage.ltNum (l : LengthPercentage) (o : ℚ) : Bool :=
  l.partialCmpNum o == some .lt

/-- The `b > 0.0` test at the `LengthPercentage` level. -/
def LengthPercentage.gtNum (l : LengthPercentage) (o : ℚ) : Bool :=
  l.partialCmpNum o == some .gt

/-- Conversion into a calc tree, `impl Into<Calc<LengthPercentage>>`. -/
def LengthPercentage.intoCalc : LengthPercentage → CalcLP
  | .Calc c => c
  | l => .Value l

/-- Tree-level addition for `Calc<LengthPercentage>`.  Modelled from the spec,
like `CalcLength.addCalc`. -/
def CalcLP.addCalc (a b : CalcLP) : CalcLP := .Sum a b

mutual
/-- Fold-relevant size of a `Length`: counts literals and `Sum` nodes; the
`Value` and `Calc` wrappers are transparent.  Used for the termination
measure of the fold/build recursion. -/
def Length.ssize : Length → ℕ
  | .Absolute _ => 1
  | .Relative _ => 1
  | .Calc c => c.ssize

/-- Fold-relevant size of a calc tree over `Length`. -/
def CalcLength.ssize : CalcLength → ℕ
  | .Value v => v.ssize
  | .Sum a b => 1 + a.ssize + b.ssize
end

mutual
/-- Full structural size of a `Length`, counting every node and wrapper. -/
def Length.tsize : Length → ℕ
  | .Absolute _ => 1
  | .Relative _ => 1
  | .Calc c => 1 + c.tsize

/-- Full structural size of a calc tree over `Length`. -/
def CalcLength.tsize : CalcLength → ℕ
  | .Value v => 1 + v.tsize
  | .Sum a b => 1 + a.tsize + b.tsize
end

mutual
/-- Fold-relevant size of a `LengthPercentage`; a wrapped `Length` contributes
its own fold-relevant size. -/
def LengthPercentage.ssize : LengthPercentage → ℕ
  | .Length l => l.ssize
  | .Percentage _ => 1
  | .Calc c => c.ssize

/-- Fold-relevant size of a calc tree over `LengthPercentage`. -/
def CalcLP.ssize : CalcLP → ℕ
  | .Value v => v.ssize
  | .Sum a b => 1 + a.ssize + b.ssize
end

mutual
/-- Full structural size of a `LengthPercentage`; the `Length` wrapper counts
one node on top of the wrapped length. -/
def LengthPercentage.tsize : LengthPercentage → ℕ
  | .Length l => 1 + l.tsize
  | .Percentage _ => 1
  | .Calc c => 1 + c.tsize

/-- Full structural size of a calc tree over `LengthPercentage`. -/
def CalcLP.tsize : CalcLP → ℕ
  | .Value v => 1 + v.tsize
  | .Sum a b => 1 + a.tsize + b.tsize
end

mutual
/-- Fuel-indexed embedding of `Length::add_recursive`, the depth-first fold
attempt.  Result `none` means the fuel ran out; `some none` is the source's
`None` (no fold possible); `some (some r)` is the source's `Some(r)`.  The
match arms mirror the source's arm order exactly.  The reattachment calls
`res.add(Length::from(*b))` resolve to the private *inherent* `Length::add`
(Rust prefers inherent methods over the `std::ops::Add` impl), i.e. the
build-only phase with no renewed fold attempt, embedded as `addBuildF`. -/
def Length.addRecF : ℕ → Length → Length → Option (Option Length)
  | 0, _, _ => none
  | n + 1, x, y =>
    match x, y with
    | .Absolute a, .Absolute b => some (some (.Absolute (a.add b)))
    | .Relative a, .Relative b =>
      match a.add_recursive b with
      | some res => some (some (.Relative res))
      | none => some none
    | .Calc (.Value v), other => Length.addRecF n v other
    | other, .Calc (.Value v) => Length.addRecF n other v
    | .Calc (.Sum a b), other =>
      match Length.addRecF n (.Calc a) other with
      | none => none
      | some (some res) => (Length.addBuildF n res (.Calc b)).map some
      | some none =>
        match Length.addRecF n (.Calc b) other with
        | none => none
        | some (some res) => (Length.addBuildF n (.Calc a) res).map some
        | some none => some none
    | other, .Calc (.Sum a b) =>
      match Length.addRecF n other (.Calc a) with
      | none => none
      | some (some res) => (Length.addBuildF n res (.Calc b)).map some
      | some none =>
        match Length.addRecF n other (.Calc b) with
        | none => none
        | some (some res) => (Length.addBuildF n (.Calc a) res).map some
        | some none => some none
    | _, _ => some none

/-- Fuel-indexed embedding of the private build phase `Length::add` (reached
only when the fold fails): identity elision on literal zeros, sign-based
swap, then tree construction.  The `Calc::Value` unwrap arms call
`a.add(b)` / `a.add(*b)`, which again resolve to the private inherent `add`
itself — the build phase recurses into itself, never back into the fold. -/
def Length.addBuildF : ℕ → Length → Length → Option Length
  | 0, _, _ => none
  | n + 1, x, y =>
    if Length.eqNum x 0 then some y
    else if Length.eqNum y 0 then some x
    else
      let a := if Length.ltNum x 0 && Length.gtNum y 0 then y else x
      let b := if Length.ltNum x 0 && Length.gtNum y 0 then x else y
      match a, b with
      | .Calc ca, .Calc cb => some (.Calc (ca.addCalc cb))
      | .Calc (.Value va), b2 => Length.addBuildF n va b2
      | a2, .Calc (.Value vb) => Length.addBuildF n a2 vb
      | a2, b2 => some (.Calc (.Sum a2.intoCalc b2.intoCalc))

/-- Fuel-indexed embedding of the public `impl Add<Length> for Length`: try
the recursive fold, fall back to the build phase. -/
def Length.addF : ℕ → Length → Length → Option Length
  | 0, _, _ => none
  | n + 1, x, y =>
    match Length.addRecF n x y with
    | none => none
    | some (some r) => some r
    | some none => Length.addBuildF n x y

/-- Fuel-indexed embedding of `LengthPercentage::add_recursive`.  The
`Length`+`Length` arm delegates to the `Length` fold; arm order mirrors the
source.  As at the `Length` level, the reattachment `res.add(...)` calls
resolve to the private inherent build-only `LengthPercentage::add`. -/
def LengthPercentage.addRecF : ℕ → LengthPercentage → LengthPercentage →
    Option (Option LengthPercentage)
  | 0, _, _ => none
  | n + 1, x, y =>
    match x, y with
    | .Length a, .Length b =>
      match Length.addRecF n a b with
      | none => none
      | some (some res) => some (some (.Length res))
      | some none => some none
    | .Percentage a, .Percentage b => some (some (.Percentage (a + b)))
    | .Calc (.Value v), other => LengthPercentage.addRecF n v other
    | other, .Calc (.Value v) => LengthPercentage.addRecF n other v
    | .Calc (.Sum a b), other =>
      match LengthPercentage.addRecF n (.Calc a) other with
      | none => none
      | some (some res) => (LengthPercentage.addBuildF n res (.Calc b)).map some
      | some none =>
        match LengthPercentage.addRecF n (.Calc b) other with
        | none => none
        | some (some res) => (LengthPercentage.addBuildF n (.Calc a) res).map some
        | some none => some none
    | other, .Calc (.Sum a b) =>
      match LengthPercentage.addRecF n other (.Calc a) with
      | none => none
      | some (some res) => (LengthPercentage.addBuildF n res (.Calc b)).map some
      | some none =>
        match LengthPercentage.addRecF n other (.Calc b) with
        | none => none
        | some (some res) => (LengthPercentage.addBuildF n (.Calc a) res).map some
        | some none => some none
    | _, _ => some none

/-- Fuel-indexed embedding of the private build phase
`LengthPercentage::add`, structurally identical to the `Length` build: its
`Calc::Value` unwrap arms recurse into the private build-only `add` itself
(inherent-method resolution), never back into the fold. -/
def LengthPercentage.addBuildF : ℕ → LengthPercentage → LengthPercentage →
    Option LengthPercentage
  | 0, _, _ => none
  | n + 1, x, y =>
    if LengthPercentage.eqNum x 0 then some y
    else if LengthPercentage.eqNum y 0 then some x
    else
      let a := if LengthPercentage.ltNum x 0 && LengthPercentage.gtNum y 0 then y else x
      let b := if LengthPercentage.ltNum x 0 && LengthPercentage.gtNum y 0 then x else y
      match a, b with
      | .Calc ca, .Calc cb => some (.Calc (ca.addCalc cb))
      | .Calc (.Value va), b2 => LengthPercentage.addBuildF n va b2
      | a2, .Calc (.Value vb) => LengthPercentage.addBuildF n a2 vb
      | a2, b2 => some (.Calc (.Sum a2.intoCalc b2.intoCalc))

/-- Fuel-indexed embedding of `impl Add for LengthPercentage`. -/
def LengthPercentage.addF : ℕ → LengthPercentage → LengthPercentage →
    Option LengthPercentage
  | 0, _, _ => none
  | n + 1, x, y =>
    match LengthPercentage.addRecF n x y with
    | none => none
    | some (some r) => some r
    | some none => LengthPercentage.addBuildF n x y
end

/-- Fuel that provably suffices for the fold `Length::add_recursive`. -/
def Length.phiR (x y : Length) : ℕ := 18 ^ (x.ssize + y.ssize) + x.tsize + y.tsize

/-- Fuel that provably suffices for the build phase. -/
def Length.phiB (x y : Length) : ℕ := Length.phiR x y + 1

/-- Fuel that provably suffices for the public addition. -/
def Length.phiA (x y : Length) : ℕ := Length.phiR x y + 2

/-- Fuel that provably suffices for `LengthPercentage::add_recursive`. -/
def LengthPercentage.phiR (x y : LengthPercentage) : ℕ :=
  18 ^ (x.ssize + y.ssize) + x.tsize + y.tsize

/-- Fuel that provably suffices for the `LengthPercentage` build phase. -/
def LengthPercentage.phiB (x y : LengthPercentage) : ℕ :=
  LengthPercentage.phiR x y + 1

/-- Fuel that provably suffices for the public `LengthPercentage` addition. -/
def LengthPercentage.phiA (x y : LengthPercentage) : ℕ :=
  LengthPercentage.phiR x y + 2

/-- The public addition `impl Add<Length> for Length`, run at the provably
sufficient fuel `phiA` (the `getD` default is never consulted; see the
sufficiency theorem). -/
def Length.add (x y : Length) : Length := (Length.addF (Length.phiA x y) x y).getD x

/-- The fuel-free fold wrapper for `Length::add_recursive`. -/
def Length.add_recursive (x y : Length) : Option Length :=
  (Length.addRecF (Length.phiR x y) x y).getD none

/-- The public addition `impl Add for LengthPercentage`, at sufficient fuel. -/
def LengthPercentage.add (x y : LengthPercentage) : LengthPercentage :=
  (LengthPercentage.addF (LengthPercentage.phiA x y) x y).getD x

mutual
/-- Scalar multiplication `impl Mul<f32> for Length`: distributes into each
variant. -/
def Length.mul : Length → ℚ → Length
  | .Absolute a, o => .Absolute (a.mul o)
  | .Relative r, o => .Relative (r.mul o)
  | .Calc c, o => .Calc (c.mul o)

/-- Scalar multiplication over a calc tree.  Modelled from the spec: §4.2 says
"an expression tree distributes the multiply over both children recursively,
preserving tree shape" (`calc.rs` is not in `src/`). -/
def CalcLength.mul : CalcLength → ℚ → CalcLength
  | .Value v, o => .Value (v.mul o)
  | .Sum a b, o => .Sum (a.mul o) (b.mul o)
end

mutual
/-- Scalar multiplication `impl Mul<f32> for LengthPercentage`. -/
def LengthPercentage.mul : LengthPercentage → ℚ → LengthPercentage
  | .Length l, o => .Length (l.mul o)
  | .Percentage p, o => .Percentage (p * o)
  | .Calc c, o => .Calc (c.mul o)

/-- Scalar multiplication over a `Calc<LengthPercentage>` tree.  Modelled from
the spec (§4.2), like `CalcLength.mul`. -/
def CalcLP.mul : CalcLP → ℚ → CalcLP
  | .Value v, o => .Value (v.mul o)
  | .Sum a b, o => .Sum (a.mul o) (b.mul o)
end

/-- Repeated stripping of the prefix `-0`, modelling Rust's
`s.trim_start_matches("-0")` on the character list of the string. -/
def trimDashZero : List Char → List Char
  | '-' :: '0' :: rest => trimDashZero rest
  | l => l

/-- Shortest-decimal rendering of a rational magnitude.  Modelled from the
spec: the numeric formatter of the external `cssparser` token serializer is
not in `src/`; §4.5 fixes its observable behavior (integral magnitudes render
without a decimal point, fractional ones with the shortest decimal
expansion).  Defined for magnitudes with a finite decimal expansion, which
covers every serialization the claims mention.  `decExp` searches for the
smallest decimal shift that makes the magnitude an integer. -/
def decExp : ℕ → ℚ → Option ℕ
  | 0, _ => none
  | fuel + 1, q => if q.den = 1 then some 0 else (decExp fuel (q * 10)).map (· + 1)

/-- Shortest-decimal rendering of a rational magnitude, continued: the digit
assembly once the decimal shift is known (digit-list bookkeeping via
`List.take`/`List.drop` on the character list). -/
def serializeNum (q : ℚ) : String :=
  match decExp 31 q with
  | none => ""
  | some k =>
    let m : ℤ := (q * (10 : ℚ) ^ k).num
    let sign : String := if m < 0 then "-" else ""
    let ds : List Char := (Nat.repr m.natAbs).data
    if k = 0 then sign ++ ⟨ds⟩
    else
      let padded : List Char :=
        if ds.length ≤ k then List.replicate (k + 1 - ds.length) '0' ++ ds else ds
      sign ++ ⟨padded.take (padded.length - k)⟩ ++ "." ++ ⟨padded.drop (padded.length - k)⟩

/-- The literal branch of `impl ToCss for Length`: a zero magnitude renders as
a bare `0`; otherwise the dimension token is rendered and, for magnitudes of
absolute value under one, the redundant leading zero is stripped
(`trim_start_matches('0')`, resp. `"-0"` after an explicit sign). -/
def litCss (v : ℚ) (u : String) : String :=
  if v = 0 then "0"
  else
    let s := serializeNum v ++ u
    if |v| < 1 then
      if v < 0 then "-" ++ (trimDashZero s.data).asString
      else (s.data.dropWhile (fun c => c = '0')).asString
    else s

mutual
/-- String serialization of a `Length`, `impl ToCss for Length`; a calc
expression delegates to the tree-level renderer. -/
def Length.toCssStr : Length → String
  | .Absolute a => litCss a.to_unit_value.1 a.to_unit_value.2
  | .Relative r => litCss r.to_unit_value.1 r.to_unit_value.2
  | .Calc c => "calc(" ++ c.innerCss ++ ")"

/-- Serialization of a calc tree body.  Modelled from the spec: §4.5 says a
composite expression delegates to the tree-level renderer (`calc.rs`, not in
`src/`); sums render as `a + b` inside the `calc(...)` wrapper. -/
def CalcLength.innerCss : CalcLength → String
  | .Value v => v.toCssStr
  | .Sum a b => a.innerCss ++ " + " ++ b.innerCss
end

mutual
/-- String serialization of a `LengthPercentage`, `impl ToCss for
LengthPercentage`: dispatches to the length, percentage or calc renderer.
The percentage leaf's own printer is external (spec §1); it is modelled from
the spec as the ratio scaled to percent with a `%` suffix. -/
def LengthPercentage.toCssStr : LengthPercentage → String
  | .Length l => l.toCssStr
  | .Percentage p => serializeNum (p * 100) ++ "%"
  | .Calc c => "calc(" ++ c.innerCss ++ ")"

/-- Serialization of a `Calc<LengthPercentage>` tree body, modelled from the
spec like `CalcLength.innerCss`. -/
def CalcLP.innerCss : CalcLP → String
  | .Value v => v.toCssStr
  | .Sum a b => a.innerCss ++ " + " ++ b.innerCss
end

/-- Tokens of the external tokenizer that this core consumes (spec §6): a bare
number, a dimension with a unit suffix, a percentage, or anything else. -/
inductive CssTok where
  | number (v : ℚ)
  | dimension (v : ℚ) (u : String)
  | percent (v : ℚ)
  | other
deriving DecidableEq, Repr

/-- Surface form of a `calc()` body: leaves and binary sums.  Modelled from
the spec (§6): the `calc(<sum-expression>)` wrapper grammar is delegated to
the external expression-tree parser. -/
inductive CalcSrc where
  | leaf (t : CssTok)
  | sum (a b : CalcSrc)
deriving DecidableEq, Repr

/-- Parse input as seen by `Length::parse` / `LengthPercentage::parse`: either
a single non-calc token, or a whole `calc()` expression.  The speculative
`Calc::parse` attempt with rollback (spec §4.4) appears here as the case
split: on a bare token the calc attempt fails and rolls back. -/
inductive ParseInput where
  | tok (t : CssTok)
  | calcExpr (b : CalcSrc)
deriving DecidableEq, Repr

/-- Lowercasing of one ASCII character, for the parser's
`match_ignore_ascii_case!` unit table. -/
def lowerChar (c : Char) : Char :=
  if 65 ≤ c.toNat ∧ c.toNat ≤ 90 then Char.ofNat (c.toNat + 32) else c

/-- ASCII lowercasing of a unit suffix string. -/
def lowerStr (s : String) : String := ⟨s.data.map lowerChar⟩

/-- The `match_ignore_ascii_case!` unit table of `Length::parse`, applied to
the lowercased suffix. -/
def Length.unitTable (ul : String) (v : ℚ) : Option Length :=
  if ul = "px" then some (.Absolute (.Px v))
  else if ul = "in" then some (.Absolute (.In v))
  else if ul = "cm" then some (.Absolute (.Cm v))
  else if ul = "mm" then some (.Absolute (.Mm v))
  else if ul = "q" then some (.Absolute (.Q v))
  else if ul = "pt" then some (.Absolute (.Pt v))
  else if ul = "pc" then some (.Absolute (.Pc v))
  else if ul = "em" then some (.Relative (.Em v))
  else if ul = "ex" then some (.Relative (.Ex v))
  else if ul = "ch" then some (.Relative (.Ch v))
  else if ul = "rem" then some (.Relative (.Rem v))
  else if ul = "vw" then some (.Relative (.Vw v))
  else if ul = "vh" then some (.Relative (.Vh v))
  else if ul = "vmin" then some (.Relative (.Vmin v))
  else if ul = "vmax" then some (.Relative (.Vmax v))
  else none

/-- The token match of `Length::parse`: a dimension token is mapped through
the case-insensitive unit table, a bare number is accepted as `Length::px`
(quirks-mode unitless length), anything else is an error (`none`). -/
def Length.parseDim : CssTok → Option Length
  | .dimension v u => Length.unitTable (lowerStr u) v
  | .number v => some (Length.px v)
  | _ => none

/-- Parse of a `calc()` body into a `Calc<Length>` tree.  Modelled from the
spec: `Calc::parse` lives in `calc.rs` (not in `src/`); leaves parse via the
leaf type's own literal grammar and sums become `Sum` nodes. -/
def CalcSrc.toCalcLength : CalcSrc → Option CalcLength
  | .leaf t => (Length.parseDim t).map .Value
  | .sum a b =>
    match a.toCalcLength, b.toCalcLength with
    | some x, some y => some (.Sum x y)
    | _, _ => none

/-- Embedding of `Length::parse`: the `calc()` grammar is attempted first; a
successful parse whose tree is a single `Calc::Value` leaf is unwrapped and
returned directly (`Ok(Calc::Value(v)) => return Ok(*v)`); otherwise the
token match applies. -/
def Length.parseInput : ParseInput → Option Length
  | .calcExpr b =>
    match b.toCalcLength with
    | some (.Value v) => some v
    | some c => some (.Calc c)
    | none => none
  | .tok t => Length.parseDim t

/-- Parse of a `calc()` body into a `Calc<LengthPercentage>` tree, with
percentage tokens allowed as leaves.  Modelled from the spec like
`CalcSrc.toCalcLength`. -/
def CalcSrc.toCalcLP : CalcSrc → Option CalcLP
  | .leaf t =>
    match Length.parseDim t with
    | some l => some (.Value (.Length l))
    | none =>
      match t with
      | .percent v => some (.Value (.Percentage v))
      | _ => none
  | .sum a b =>
    match a.toCalcLP, b.toCalcLP with
    | some x, some y => some (.Sum x y)
    | _, _ => none

/-- Embedding of `LengthPercentage::parse`: calc first (with the single-leaf
unwrap), then a length literal, then a percentage token. -/
def LengthPercentage.parseInput : ParseInput → Option LengthPercentage
  | .calcExpr b =>
    match b.toCalcLP with
    | some (.Value v) => some v
    | some c => some (.Calc c)
    | none => none
  | .tok t =>
    match Length.parseDim t with
    | some l => some (.Length l)
    | none =>
      match t with
      | .percent v => some (.Percentage v)
      | _ => none

/-- Serialization of a literal `Length` at the tokenizer boundary: the `to_css`
output of a zero literal is the bare text `0`, which the external tokenizer
reads back as a number token; any other literal serializes as a dimension
token carrying the same magnitude and unit suffix (the external shortest
round-trip float formatter is exact).  A calc expression is not a single
token (`none`). -/
def Length.toTok : Length → Option CssTok
  | .Absolute a => if a.to_unit_value.1 = 0 then some (.number 0)
      else some (.dimension a.to_unit_value.1 a.to_unit_value.2)
  | .Relative r => if r.to_unit_value.1 = 0 then some (.number 0)
      else some (.dimension r.to_unit_value.1 r.to_unit_value.2)
  | .Calc _ => none

/-- The round trip `parse(to_css(v))` of a literal at the tokenizer boundary. -/
def Length.roundTrip (l : Length) : Option Length :=
  l.toTok.bind (fun t => Length.parseInput (.tok t))

/-- True exactly on the `Calc` variant. -/
def Length.isCalc : Length → Bool
  | .Calc _ => true
  | _ => false

/-- True exactly on a `Calc` variant that wraps a single `Calc::Value` leaf —
the degenerate shape that parsing must never return. -/
def Length.isCalcValue : Length → Bool
  | .Calc (.Value _) => true
  | _ => false

/-- True exactly on a `Calc` variant wrapping a single leaf, at the
`LengthPercentage` level. -/
def LengthPercentage.isCalcValue : LengthPercentage → Bool
  | .Calc (.Value _) => true
  | _ => false

/-- Stored magnitude of a literal (non-calc) `Length`; `none` on a calc
expression. -/
def Length.litVal : Length → Option ℚ
  | .Absolute a => some a.val
  | .Relative r => some r.val
  | .Calc _ => none

/-- An IEEE-style `f32` magnitude with signed zero: `zero neg` is `+0.0` or
`-0.0` according to `neg`, and `num q` carries any other value exactly.  The
two zeros are distinct data, yet denote the same number. -/
inductive Fz where
  | zero (neg : Bool)
  | num (q : ℚ)
deriving DecidableEq, Repr

/-- The number an `Fz` magnitude denotes: both signed zeros denote `0`. -/
def Fz.val : Fz → ℚ
  | .zero _ => 0
  | .num q => q

/-- IEEE `==` on magnitudes: comparison of denoted values, under which
`-0.0 == 0.0` holds even though the two are distinct data. -/
def f32eq (x y : Fz) : Bool := decide (x.val = y.val)

/-- The literal branch of `Length::to_css` over an IEEE magnitude with signed
zero: the zero test `value == 0.0` is the IEEE equality, so it accepts
`-0.0`; the rest is the `litCss` logic over the denoted value. -/
def litCssF (v : Fz) (u : String) : String :=
  if f32eq v (.zero false) then "0"
  else
    let s := serializeNum v.val ++ u
    if |v.val| < 1 then
      if v.val < 0 then "-" ++ (trimDashZero s.data).asString
      else (s.data.dropWhile (fun c => c = '0')).asString
    else s

/-- The identity-elision step opening the private `add` over IEEE magnitudes:
`if a == 0.0 \x7b return b \x7d; if b == 0.0 \x7b return a \x7d`.  `some` is
an early return of the surviving operand; `none` means elision does not fire
and the build phase continues. -/
def addElideF (a b : Fz) : Option Fz :=
  if f32eq a (.zero false) then some b
  else if f32eq b (.zero false) then some a
  else none

mutual
/-- Every length has fold-relevant size at least one. -/
theorem Length.one_le_ssize : ∀ l : Length, 1 ≤ l.ssize
  | .Absolute _ => le_refl 1
  | .Relative _ => le_refl 1
  | .Calc c => CalcLength.one_le_ssize_c c

/-- Every calc tree has fold-relevant size at least one. -/
theorem CalcLength.one_le_ssize_c : ∀ c : CalcLength, 1 ≤ c.ssize
  | .Value v => Length.one_le_ssize v
  | .Sum a _ => by
    have := CalcLength.one_le_ssize_c a
    simp only [CalcLength.ssize]
    omega
end

mutual
/-- Every length-percentage has fold-relevant size at least one. -/
theorem LengthPercentage.one_le_ssize_lp : ∀ l : LengthPercentage, 1 ≤ l.ssize
  | .Length l => Length.one_le_ssize l
  | .Percentage _ => le_refl 1
  | .Calc c => CalcLP.one_le_ssize_clp c

/-- Every calc tree over length-percentages has fold-relevant size at least one. -/
theorem CalcLP.one_le_ssize_clp : ∀ c : CalcLP, 1 ≤ c.ssize
  | .Value v => LengthPercentage.one_le_ssize_lp v
  | .Sum a _ => by
    have := CalcLP.one_le_ssize_clp a
    simp only [CalcLP.ssize]
    omega
end

/-- Monotonicity of the fuel base. -/
theorem pow18_le {a b : ℕ} (h : a ≤ b) : (18 : ℕ) ^ a ≤ 18 ^ b :=
  Nat.pow_le_pow_right (by norm_num) h

/-- One fuel-base step absorbs a doubling. -/
theorem pow18_step (e : ℕ) : 18 ^ e + 18 ^ e ≤ 18 ^ (e + 1) := by
  have h : (18 : ℕ) ^ (e + 1) = 18 ^ e * 18 := pow_succ 18 e
  have h1 : 1 ≤ (18 : ℕ) ^ e := Nat.one_le_pow _ _ (by norm_num)
  omega

/-- Wrapping through `Into<Calc<Length>>` preserves the fold-relevant size. -/
theorem Length.ssize_intoCalc (l : Length) : l.intoCalc.ssize = l.ssize := by
  cases l <;> rfl

/-- Wrapping through `Into<Calc<Length>>` grows the structural size by at most
one node. -/
theorem Length.tsize_intoCalc (l : Length) : l.intoCalc.tsize ≤ l.tsize + 1 := by
  cases l <;> (simp [Length.intoCalc, CalcLength.tsize, Length.tsize]; try omega)

/-- Two fuel-base powers below `c` fit into one power `c`. -/
theorem pow18_two {a b c : ℕ} (h1 : a + 1 ≤ c) (h2 : b + 1 ≤ c) :
    (18 : ℕ) ^ a + 18 ^ b ≤ 18 ^ c := by
  have ha : (18 : ℕ) ^ a ≤ 18 ^ (c - 1) := pow18_le (by omega)
  have hb : (18 : ℕ) ^ b ≤ 18 ^ (c - 1) := pow18_le (by omega)
  have hs := pow18_step (c - 1)
  have hc : c - 1 + 1 = c := by omega
  rw [hc] at hs
  omega

set_option maxHeartbeats 1000000 in
theorem Length.addBounds : ∀ n : ℕ,
    (∀ x y r, Length.addRecF n x y = some (some r) →
      r.ssize ≤ x.ssize + y.ssize ∧
      r.tsize ≤ x.tsize + y.tsize + 18 ^ (x.ssize + y.ssize)) ∧
    (∀ x y r, Length.addBuildF n x y = some r →
      r.ssize ≤ x.ssize + y.ssize + 1 ∧
      r.tsize ≤ x.tsize + y.tsize + 18 ^ (x.ssize + y.ssize)) ∧
    (∀ x y r, Length.addF n x y = some r →
      r.ssize ≤ x.ssize + y.ssize + 1 ∧
      r.tsize ≤ x.tsize + y.tsize + 18 ^ (x.ssize + y.ssize)) := by
  intro n
  induction n with
  | zero =>
    refine ⟨?_, ?_, ?_⟩ <;> intro x y r h <;>
      simp [Length.addRecF, Length.addBuildF, Length.addF] at h
  | succ n ih =>
    obtain ⟨ihR, ihB, ihA⟩ := ih
    refine ⟨?_, ?_, ?_⟩
    · intro x y r h
      simp only [Length.addRecF] at h
      split at h
      · rename_i a b
        obtain rfl : Length.Absolute (a.add b) = r := by simpa using h
        refine ⟨by simp [Length.ssize], ?_⟩
        simp only [Length.tsize, Length.ssize]
        norm_num
      · rename_i a b
        rcases hab : a.add_recursive b with _ | res
        · rw [hab] at h; simp at h
        · rw [hab] at h
          obtain rfl : Length.Relative res = r := by simpa using h
          refine ⟨by simp [Length.ssize], ?_⟩
          simp only [Length.tsize, Length.ssize]
          norm_num
      · rename_i v
        obtain ⟨hs, ht⟩ := ihR v y r h
        simp only [Length.ssize, CalcLength.ssize, Length.tsize, CalcLength.tsize] at *
        exact ⟨by omega, by omega⟩
      · rename_i v hx
        obtain ⟨hs, ht⟩ := ihR x v r h
        simp only [Length.ssize, CalcLength.ssize, Length.tsize, CalcLength.tsize] at *
        exact ⟨by omega, by omega⟩
      · rename_i ca cb hy1
        rcases h1 : Length.addRecF n (Length.Calc ca) y with _ | _ | res
        · rw [h1] at h; simp at h
        · rw [h1] at h
          simp only at h
          rcases h2 : Length.addRecF n (Length.Calc cb) y with _ | _ | res
          · rw [h2] at h; simp at h
          · rw [h2] at h; simp at h
          · rw [h2] at h
            simp only at h
            rw [Option.map_eq_some'] at h
            obtain ⟨r2, h2a, h2b⟩ := h
            obtain rfl : r2 = r := by simpa using h2b
            obtain ⟨hs1, ht1⟩ := ihR (Length.Calc cb) y res h2
            obtain ⟨hs2, ht2⟩ := ihB (Length.Calc ca) res r2 h2a
            simp only [Length.ssize, CalcLength.ssize, Length.tsize, CalcLength.tsize]
              at hs1 ht1 hs2 ht2 ⊢
            have hb1 := CalcLength.one_le_ssize_c cb
            have hb2 := CalcLength.one_le_ssize_c ca
            have p1 : (18 : ℕ) ^ (ca.ssize + res.ssize) + 18 ^ (cb.ssize + y.ssize) ≤
                18 ^ (1 + ca.ssize + cb.ssize + y.ssize) :=
              pow18_two (by omega) (by omega)
            exact ⟨by omega, by omega⟩
        · rw [h1] at h
          simp only at h
          rw [Option.map_eq_some'] at h
          obtain ⟨r2, h2a, h2b⟩ := h
          obtain rfl : r2 = r := by simpa using h2b
          obtain ⟨hs1, ht1⟩ := ihR (Length.Calc ca) y res h1
          obtain ⟨hs2, ht2⟩ := ihB res (Length.Calc cb) r2 h2a
          simp only [Length.ssize, CalcLength.ssize, Length.tsize, CalcLength.tsize]
            at hs1 ht1 hs2 ht2 ⊢
          have hb1 := CalcLength.one_le_ssize_c cb
          have hb2 := CalcLength.one_le_ssize_c ca
          have p1 : (18 : ℕ) ^ (res.ssize + cb.ssize) + 18 ^ (ca.ssize + y.ssize) ≤
              18 ^ (1 + ca.ssize + cb.ssize + y.ssize) :=
            pow18_two (by omega) (by omega)
          exact ⟨by omega, by omega⟩
      · rename_i ca cb hx1 hx2
        rcases h1 : Length.addRecF n x (Length.Calc ca) with _ | _ | res
        · rw [h1] at h; simp at h
        · rw [h1] at h
          simp only at h
          rcases h2 : Length.addRecF n x (Length.Calc cb) with _ | _ | res
          · rw [h2] at h; simp at h
          · rw [h2] at h; simp at h
          · rw [h2] at h
            simp only at h
            rw [Option.map_eq_some'] at h
            obtain ⟨r2, h2a, h2b⟩ := h
            obtain rfl : r2 = r := by simpa using h2b
            obtain ⟨hs1, ht1⟩ := ihR x (Length.Calc cb) res h2
            obtain ⟨hs2, ht2⟩ := ihB (Length.Calc ca) res r2 h2a
            simp only [Length.ssize, CalcLength.ssize, Length.tsize, CalcLength.tsize]
              at hs1 ht1 hs2 ht2 ⊢
            have hb1 := CalcLength.one_le_ssize_c cb
            have hb2 := CalcLength.one_le_ssize_c ca
            have p1 : (18 : ℕ) ^ (ca.ssize + res.ssize) + 18 ^ (x.ssize + cb.ssize) ≤
                18 ^ (x.ssize + (1 + ca.ssize + cb.ssize)) :=
              pow18_two (by omega) (by omega)
            exact ⟨by omega, by omega⟩
        · rw [h1] at h
          simp only at h
          rw [Option.map_eq_some'] at h
          obtain ⟨r2, h2a, h2b⟩ := h
          obtain rfl : r2 = r := by simpa using h2b
          obtain ⟨hs1, ht1⟩ := ihR x (Length.Calc ca) res h1
          obtain ⟨hs2, ht2⟩ := ihB res (Length.Calc cb) r2 h2a
          simp only [Length.ssize, CalcLength.ssize, Length.tsize, CalcLength.tsize]
            at hs1 ht1 hs2 ht2 ⊢
          have hb1 := CalcLength.one_le_ssize_c cb
          have hb2 := CalcLength.one_le_ssize_c ca
          have p1 : (18 : ℕ) ^ (res.ssize + cb.ssize) + 18 ^ (x.ssize + ca.ssize) ≤
              18 ^ (x.ssize + (1 + ca.ssize + cb.ssize)) :=
            pow18_two (by omega) (by omega)
          exact ⟨by omega, by omega⟩
      · simp at h
    · intro x y r h
      have hx1 := Length.one_le_ssize x
      have hy1 := Length.one_le_ssize y
      have hp2 : (18 : ℕ) ^ 2 ≤ 18 ^ (x.ssize + y.ssize) := pow18_le (by omega)
      have hp2v : (18 : ℕ) ^ 2 = 324 := by norm_num
      simp only [Length.addBuildF] at h
      split at h
      · obtain rfl : y = r := by simpa using h
        exact ⟨by omega, by omega⟩
      · split at h
        · obtain rfl : x = r := by simpa using h
          exact ⟨by omega, by omega⟩
        · have hcm : ∀ a b : ℕ, (18 : ℕ) ^ (a + b) = 18 ^ (b + a) := fun a b => by
            rw [Nat.add_comm]
          cases hc : (Length.ltNum x 0 && Length.gtNum y 0) <;> simp [hc] at h
          · split at h
            · rw [Option.some.injEq] at h
              subst h
              simp only [Length.ssize, CalcLength.ssize, Length.tsize, CalcLength.tsize,
                CalcLength.addCalc] at *
              exact ⟨by omega, by omega⟩
            · obtain ⟨hs, ht⟩ := ihB _ y r h
              simp only [Length.ssize, CalcLength.ssize, Length.tsize, CalcLength.tsize] at *
              exact ⟨by omega, by omega⟩
            · obtain ⟨hs, ht⟩ := ihB x _ r h
              simp only [Length.ssize, CalcLength.ssize, Length.tsize, CalcLength.tsize] at *
              exact ⟨by omega, by omega⟩
            · rw [Option.some.injEq] at h
              subst h
              have hsx := Length.ssize_intoCalc x
              have hsy := Length.ssize_intoCalc y
              have htx := Length.tsize_intoCalc x
              have hty := Length.tsize_intoCalc y
              simp only [Length.ssize, CalcLength.ssize, Length.tsize, CalcLength.tsize] at *
              exact ⟨by omega, by omega⟩
          · split at h
            · rw [Option.some.injEq] at h
              subst h
              simp only [Length.ssize, CalcLength.ssize, Length.tsize, CalcLength.tsize,
                CalcLength.addCalc] at *
              exact ⟨by omega, by omega⟩
            · obtain ⟨hs, ht⟩ := ihB _ x r h
              simp only [Length.ssize, CalcLength.ssize, Length.tsize, CalcLength.tsize] at *
              rw [hcm] at ht
              exact ⟨by omega, by omega⟩
            · obtain ⟨hs, ht⟩ := ihB y _ r h
              simp only [Length.ssize, CalcLength.ssize, Length.tsize, CalcLength.tsize] at *
              rw [hcm] at ht
              exact ⟨by omega, by omega⟩
            · rw [Option.some.injEq] at h
              subst h
              have hsx := Length.ssize_intoCalc x
              have hsy := Length.ssize_intoCalc y
              have htx := Length.tsize_intoCalc x
              have hty := Length.tsize_intoCalc y
              simp only [Length.ssize, CalcLength.ssize, Length.tsize, CalcLength.tsize] at *
              exact ⟨by omega, by omega⟩
    · intro x y r h
      simp only [Length.addF] at h
      split at h
      · simp at h
      · rename_i res heq
        obtain rfl : res = r := by simpa using h
        obtain ⟨hs, ht⟩ := ihR x y res heq
        exact ⟨by omega, by omega⟩
      · exact ihB x y r h

/-- Wrapping through `Into<Calc<LengthPercentage>>` preserves the
fold-relevant size. -/
theorem LengthPercentage.ssize_intoCalc_lp (l : LengthPercentage) :
    l.intoCalc.ssize = l.ssize := by
  cases l <;> rfl

/-- Wrapping through `Into<Calc<LengthPercentage>>` grows the structural size
by at most one node. -/
theorem LengthPercentage.tsize_intoCalc_lp (l : LengthPercentage) :
    l.intoCalc.tsize ≤ l.tsize + 1 := by
  cases l <;> (simp [LengthPercentage.intoCalc, CalcLP.tsize, LengthPercentage.tsize]; try omega)

set_option maxHeartbeats 1000000 in
theorem LengthPercentage.addBounds_lp : ∀ n : ℕ,
    (∀ x y r, LengthPercentage.addRecF n x y = some (some r) →
      r.ssize ≤ x.ssize + y.ssize ∧
      r.tsize ≤ x.tsize + y.tsize + 18 ^ (x.ssize + y.ssize)) ∧
    (∀ x y r, LengthPercentage.addBuildF n x y = some r →
      r.ssize ≤ x.ssize + y.ssize + 1 ∧
      r.tsize ≤ x.tsize + y.tsize + 18 ^ (x.ssize + y.ssize)) ∧
    (∀ x y r, LengthPercentage.addF n x y = some r →
      r.ssize ≤ x.ssize + y.ssize + 1 ∧
      r.tsize ≤ x.tsize + y.tsize + 18 ^ (x.ssize + y.ssize)) := by
  intro n
  induction n with
  | zero =>
    refine ⟨?_, ?_, ?_⟩ <;> intro x y r h <;>
      simp [LengthPercentage.addRecF, LengthPercentage.addBuildF, LengthPercentage.addF] at h
  | succ n ih =>
    obtain ⟨ihR, ihB, ihA⟩ := ih
    refine ⟨?_, ?_, ?_⟩
    · intro x y r h
      simp only [LengthPercentage.addRecF] at h
      split at h
      · rename_i a b
        rcases h1 : Length.addRecF n a b with _ | _ | res
        · rw [h1] at h; simp at h
        · rw [h1] at h; simp at h
        · rw [h1] at h
          obtain rfl : LengthPercentage.Length res = r := by simpa using h
          obtain ⟨hs, ht⟩ := ((Length.addBounds n).1) a b res h1
          simp only [LengthPercentage.ssize, LengthPercentage.tsize]
          exact ⟨by omega, by omega⟩
      · rename_i p q
        obtain rfl : LengthPercentage.Percentage (p + q) = r := by simpa using h
        refine ⟨by simp [LengthPercentage.ssize], ?_⟩
        simp only [LengthPercentage.tsize, LengthPercentage.ssize]
        norm_num
      · rename_i v hx
        obtain ⟨hs, ht⟩ := ihR _ y r h
        simp only [LengthPercentage.ssize, CalcLP.ssize, LengthPercentage.tsize,
          CalcLP.tsize] at *
        exact ⟨by omega, by omega⟩
      · rename_i v hx
        obtain ⟨hs, ht⟩ := ihR x _ r h
        simp only [LengthPercentage.ssize, CalcLP.ssize, LengthPercentage.tsize,
          CalcLP.tsize] at *
        exact ⟨by omega, by omega⟩
      · rename_i ca cb hy1
        rcases h1 : LengthPercentage.addRecF n (LengthPercentage.Calc ca) y with _ | _ | res
        · rw [h1] at h; simp at h
        · rw [h1] at h
          simp only at h
          rcases h2 : LengthPercentage.addRecF n (LengthPercentage.Calc cb) y with _ | _ | res
          · rw [h2] at h; simp at h
          · rw [h2] at h; simp at h
          · rw [h2] at h
            simp only at h
            rw [Option.map_eq_some'] at h
            obtain ⟨r2, h2a, h2b⟩ := h
            obtain rfl : r2 = r := by simpa using h2b
            obtain ⟨hs1, ht1⟩ := ihR (LengthPercentage.Calc cb) y res h2
            obtain ⟨hs2, ht2⟩ := ihB (LengthPercentage.Calc ca) res r2 h2a
            simp only [LengthPercentage.ssize, CalcLP.ssize, LengthPercentage.tsize,
              CalcLP.tsize] at hs1 ht1 hs2 ht2 ⊢
            have hb1 := CalcLP.one_le_ssize_clp cb
            have hb2 := CalcLP.one_le_ssize_clp ca
            have p1 : (18 : ℕ) ^ (ca.ssize + res.ssize) + 18 ^ (cb.ssize + y.ssize) ≤
                18 ^ (1 + ca.ssize + cb.ssize + y.ssize) :=
              pow18_two (by omega) (by omega)
            exact ⟨by omega, by omega⟩
        · rw [h1] at h
          simp only at h
          rw [Option.map_eq_some'] at h
          obtain ⟨r2, h2a, h2b⟩ := h
          obtain rfl : r2 = r := by simpa using h2b
          obtain ⟨hs1, ht1⟩ := ihR (LengthPercentage.Calc ca) y res h1
          obtain ⟨hs2, ht2⟩ := ihB res (LengthPercentage.Calc cb) r2 h2a
          simp only [LengthPercentage.ssize, CalcLP.ssize, LengthPercentage.tsize,
            CalcLP.tsize] at hs1 ht1 hs2 ht2 ⊢
          have hb1 := CalcLP.one_le_ssize_clp cb
          have hb2 := CalcLP.one_le_ssize_clp ca
          have p1 : (18 : ℕ) ^ (res.ssize + cb.ssize) + 18 ^ (ca.ssize + y.ssize) ≤
              18 ^ (1 + ca.ssize + cb.ssize + y.ssize) :=
            pow18_two (by omega) (by omega)
          exact ⟨by omega, by omega⟩
      · rename_i ca cb hx1 hx2
        rcases h1 : LengthPercentage.addRecF n x (LengthPercentage.Calc ca) with _ | _ | res
        · rw [h1] at h; simp at h
        · rw [h1] at h
          simp only at h
          rcases h2 : LengthPercentage.addRecF n x (LengthPercentage.Calc cb) with _ | _ | res
          · rw [h2] at h; simp at h
          · rw [h2] at h; simp at h
          · rw [h2] at h
            simp only at h
            rw [Option.map_eq_some'] at h
            obtain ⟨r2, h2a, h2b⟩ := h
            obtain rfl : r2 = r := by simpa using h2b
            obtain ⟨hs1, ht1⟩ := ihR x (LengthPercentage.Calc cb) res h2
            obtain ⟨hs2, ht2⟩ := ihB (LengthPercentage.Calc ca) res r2 h2a
            simp only [LengthPercentage.ssize, CalcLP.ssize, LengthPercentage.tsize,
              CalcLP.tsize] at hs1 ht1 hs2 ht2 ⊢
            have hb1 := CalcLP.one_le_ssize_clp cb
            have hb2 := CalcLP.one_le_ssize_clp ca
            have p1 : (18 : ℕ) ^ (ca.ssize + res.ssize) + 18 ^ (x.ssize + cb.ssize) ≤
                18 ^ (x.ssize + (1 + ca.ssize + cb.ssize)) :=
              pow18_two (by omega) (by omega)
            exact ⟨by omega, by omega⟩
        · rw [h1] at h
          simp only at h
          rw [Option.map_eq_some'] at h
          obtain ⟨r2, h2a, h2b⟩ := h
          obtain rfl : r2 = r := by simpa using h2b
          obtain ⟨hs1, ht1⟩ := ihR x (LengthPercentage.Calc ca) res h1
          obtain ⟨hs2, ht2⟩ := ihB res (LengthPercentage.Calc cb) r2 h2a
          simp only [LengthPercentage.ssize, CalcLP.ssize, LengthPercentage.tsize,
            CalcLP.tsize] at hs1 ht1 hs2 ht2 ⊢
          have hb1 := CalcLP.one_le_ssize_clp cb
          have hb2 := CalcLP.one_le_ssize_clp ca
          have p1 : (18 : ℕ) ^ (res.ssize + cb.ssize) + 18 ^ (x.ssize + ca.ssize) ≤
              18 ^ (x.ssize + (1 + ca.ssize + cb.ssize)) :=
            pow18_two (by omega) (by omega)
          exact ⟨by omega, by omega⟩
      · simp at h
    · intro x y r h
      have hx1 := LengthPercentage.one_le_ssize_lp x
      have hy1 := LengthPercentage.one_le_ssize_lp y
      have hp2 : (18 : ℕ) ^ 2 ≤ 18 ^ (x.ssize + y.ssize) := pow18_le (by omega)
      have hp2v : (18 : ℕ) ^ 2 = 324 := by norm_num
      simp only [LengthPercentage.addBuildF] at h
      split at h
      · obtain rfl : y = r := by simpa using h
        exact ⟨by omega, by omega⟩
      · split at h
        · obtain rfl : x = r := by simpa using h
          exact ⟨by omega, by omega⟩
        · have hcm : ∀ a b : ℕ, (18 : ℕ) ^ (a + b) = 18 ^ (b + a) := fun a b => by
            rw [Nat.add_comm]
          cases hc : (LengthPercentage.ltNum x 0 && LengthPercentage.gtNum y 0) <;>
            simp [hc] at h
          · split at h
            · rw [Option.some.injEq] at h
              subst h
              simp only [LengthPercentage.ssize, CalcLP.ssize, LengthPercentage.tsize,
                CalcLP.tsize, CalcLP.addCalc] at *
              exact ⟨by omega, by omega⟩
            · obtain ⟨hs, ht⟩ := ihB _ y r h
              simp only [LengthPercentage.ssize, CalcLP.ssize, LengthPercentage.tsize,
                CalcLP.tsize] at *
              exact ⟨by omega, by omega⟩
            · obtain ⟨hs, ht⟩ := ihB x _ r h
              simp only [LengthPercentage.ssize, CalcLP.ssize, LengthPercentage.tsize,
                CalcLP.tsize] at *
              exact ⟨by omega, by omega⟩
            · rw [Option.some.injEq] at h
              subst h
              have hsx := LengthPercentage.ssize_intoCalc_lp x
              have hsy := LengthPercentage.ssize_intoCalc_lp y
              have htx := LengthPercentage.tsize_intoCalc_lp x
              have hty := LengthPercentage.tsize_intoCalc_lp y
              simp only [LengthPercentage.ssize, CalcLP.ssize, LengthPercentage.tsize,
                CalcLP.tsize] at *
              exact ⟨by omega, by omega⟩
          · split at h
            · rw [Option.some.injEq] at h
              subst h
              simp only [LengthPercentage.ssize, CalcLP.ssize, LengthPercentage.tsize,
                CalcLP.tsize, CalcLP.addCalc] at *
              exact ⟨by omega, by omega⟩
            · obtain ⟨hs, ht⟩ := ihB _ x r h
              simp only [LengthPercentage.ssize, CalcLP.ssize, LengthPercentage.tsize,
                CalcLP.tsize] at *
              rw [hcm] at ht
              exact ⟨by omega, by omega⟩
            · obtain ⟨hs, ht⟩ := ihB y _ r h
              simp only [LengthPercentage.ssize, CalcLP.ssize, LengthPercentage.tsize,
                CalcLP.tsize] at *
              rw [hcm] at ht
              exact ⟨by omega, by omega⟩
            · rw [Option.some.injEq] at h
              subst h
              have hsx := LengthPercentage.ssize_intoCalc_lp x
              have hsy := LengthPercentage.ssize_intoCalc_lp y
              have htx := LengthPercentage.tsize_intoCalc_lp x
              have hty := LengthPercentage.tsize_intoCalc_lp y
              simp only [LengthPercentage.ssize, CalcLP.ssize, LengthPercentage.tsize,
                CalcLP.tsize] at *
              exact ⟨by omega, by omega⟩
    · intro x y r h
      simp only [LengthPercentage.addF] at h
      split at h
      · simp at h
      · rename_i res heq
        obtain rfl : res = r := by simpa using h
        obtain ⟨hs, ht⟩ := ihR x y res heq
        exact ⟨by omega, by omega⟩
      · exact ihB x y r h

/-- Two fuel-base powers below `c` fit into one power `c` with slack sixteen. -/
theorem pow18_two_slack {a b c : ℕ} (h1 : a + 1 ≤ c) (h2 : b + 1 ≤ c) :
    (18 : ℕ) ^ a + 18 ^ b + 16 ≤ 18 ^ c := by
  have ha : (18 : ℕ) ^ a ≤ 18 ^ (c - 1) := pow18_le (by omega)
  have hb : (18 : ℕ) ^ b ≤ 18 ^ (c - 1) := pow18_le (by omega)
  have h3 : 1 ≤ (18 : ℕ) ^ (c - 1) := Nat.one_le_pow _ _ (by norm_num)
  have hc : c - 1 + 1 = c := by omega
  have hs : (18 : ℕ) ^ c = 18 ^ (c - 1) * 18 := by
    conv_lhs => rw [← hc]
    rw [pow_succ]
  omega

set_option maxHeartbeats 1000000 in
theorem Length.addSuff : ∀ n : ℕ,
    (∀ x y, Length.phiR x y ≤ n → (Length.addRecF n x y).isSome) ∧
    (∀ x y, Length.phiB x y ≤ n → (Length.addBuildF n x y).isSome) ∧
    (∀ x y, Length.phiA x y ≤ n → (Length.addF n x y).isSome) := by
  intro n
  induction n with
  | zero =>
    refine ⟨?_, ?_, ?_⟩ <;> intro x y hphi <;> exfalso <;>
      have h1 : 1 ≤ (18 : ℕ) ^ (x.ssize + y.ssize) := Nat.one_le_pow _ _ (by norm_num) <;>
      simp only [Length.phiR, Length.phiB, Length.phiA] at hphi <;> omega
  | succ n ih =>
    obtain ⟨ihR, ihB, ihA⟩ := ih
    have hcm : ∀ a b : ℕ, (18 : ℕ) ^ (a + b) = 18 ^ (b + a) := fun a b => by
      rw [Nat.add_comm]
    refine ⟨?_, ?_, ?_⟩
    · intro x y hphi
      simp only [Length.addRecF]
      split
      · simp
      · rename_i a b
        cases hab : a.add_recursive b <;> simp [hab]
      · rename_i v
        have h1 : (Length.addRecF n v y).isSome := by
          refine ihR v y ?_
          simp only [Length.phiR, Length.ssize, CalcLength.ssize, Length.tsize,
            CalcLength.tsize] at hphi ⊢
          omega
        obtain ⟨o, ho⟩ := Option.isSome_iff_exists.mp h1
        simp [ho]
      · rename_i v hx
        have h1 : (Length.addRecF n x v).isSome := by
          refine ihR x v ?_
          simp only [Length.phiR, Length.ssize, CalcLength.ssize, Length.tsize,
            CalcLength.tsize] at hphi ⊢
          omega
        obtain ⟨o, ho⟩ := Option.isSome_iff_exists.mp h1
        simp [ho]
      · rename_i ca cb hy1
        have hb1 := CalcLength.one_le_ssize_c ca
        have hb2 := CalcLength.one_le_ssize_c cb
        have hφ1 : Length.phiR (Length.Calc ca) y ≤ n := by
          simp only [Length.phiR, Length.ssize, CalcLength.ssize, Length.tsize,
            CalcLength.tsize] at hphi ⊢
          have pw : (18 : ℕ) ^ (ca.ssize + y.ssize) ≤
              18 ^ (1 + ca.ssize + cb.ssize + y.ssize) := pow18_le (by omega)
          omega
        obtain ⟨o, ho⟩ := Option.isSome_iff_exists.mp (ihR (Length.Calc ca) y hφ1)
        rw [ho]
        cases o with
        | some res =>
          obtain ⟨hs1, ht1⟩ := (Length.addBounds n).1 (Length.Calc ca) y res ho
          have hφ2 : Length.phiB res (Length.Calc cb) ≤ n := by
            simp only [Length.phiR, Length.phiA, Length.phiB, Length.ssize, CalcLength.ssize,
              Length.tsize, CalcLength.tsize] at hphi hs1 ht1 ⊢
            have pw : (18 : ℕ) ^ (res.ssize + cb.ssize) + 18 ^ (ca.ssize + y.ssize) + 16 ≤
                18 ^ (1 + ca.ssize + cb.ssize + y.ssize) :=
              pow18_two_slack (by omega) (by omega)
            omega
          obtain ⟨r2, hr2⟩ := Option.isSome_iff_exists.mp (ihB res (Length.Calc cb) hφ2)
          simp [hr2]
        | none =>
          have hφ2 : Length.phiR (Length.Calc cb) y ≤ n := by
            simp only [Length.phiR, Length.ssize, CalcLength.ssize, Length.tsize,
              CalcLength.tsize] at hphi ⊢
            have pw : (18 : ℕ) ^ (cb.ssize + y.ssize) ≤
                18 ^ (1 + ca.ssize + cb.ssize + y.ssize) := pow18_le (by omega)
            omega
          obtain ⟨o2, ho2⟩ := Option.isSome_iff_exists.mp (ihR (Length.Calc cb) y hφ2)
          simp only
          rw [ho2]
          cases o2 with
          | some res =>
            obtain ⟨hs1, ht1⟩ := (Length.addBounds n).1 (Length.Calc cb) y res ho2
            have hφ3 : Length.phiB (Length.Calc ca) res ≤ n := by
              simp only [Length.phiR, Length.phiA, Length.phiB, Length.ssize, CalcLength.ssize,
                Length.tsize, CalcLength.tsize] at hphi hs1 ht1 ⊢
              have pw : (18 : ℕ) ^ (ca.ssize + res.ssize) + 18 ^ (cb.ssize + y.ssize) + 16 ≤
                  18 ^ (1 + ca.ssize + cb.ssize + y.ssize) :=
                pow18_two_slack (by omega) (by omega)
              omega
            obtain ⟨r2, hr2⟩ := Option.isSome_iff_exists.mp (ihB (Length.Calc ca) res hφ3)
            simp [hr2]
          | none => simp
      · rename_i ca cb hx1 hx2
        have hb1 := CalcLength.one_le_ssize_c ca
        have hb2 := CalcLength.one_le_ssize_c cb
        have hφ1 : Length.phiR x (Length.Calc ca) ≤ n := by
          simp only [Length.phiR, Length.ssize, CalcLength.ssize, Length.tsize,
            CalcLength.tsize] at hphi ⊢
          have pw : (18 : ℕ) ^ (x.ssize + ca.ssize) ≤
              18 ^ (x.ssize + (1 + ca.ssize + cb.ssize)) := pow18_le (by omega)
          omega
        obtain ⟨o, ho⟩ := Option.isSome_iff_exists.mp (ihR x (Length.Calc ca) hφ1)
        rw [ho]
        cases o with
        | some res =>
          obtain ⟨hs1, ht1⟩ := (Length.addBounds n).1 x (Length.Calc ca) res ho
          have hφ2 : Length.phiB res (Length.Calc cb) ≤ n := by
            simp only [Length.phiR, Length.phiA, Length.phiB, Length.ssize, CalcLength.ssize,
              Length.tsize, CalcLength.tsize] at hphi hs1 ht1 ⊢
            have pw : (18 : ℕ) ^ (res.ssize + cb.ssize) + 18 ^ (x.ssize + ca.ssize) + 16 ≤
                18 ^ (x.ssize + (1 + ca.ssize + cb.ssize)) :=
              pow18_two_slack (by omega) (by omega)
            omega
          obtain ⟨r2, hr2⟩ := Option.isSome_iff_exists.mp (ihB res (Length.Calc cb) hφ2)
          simp [hr2]
        | none =>
          have hφ2 : Length.phiR x (Length.Calc cb) ≤ n := by
            simp only [Length.phiR, Length.ssize, CalcLength.ssize, Length.tsize,
              CalcLength.tsize] at hphi ⊢
            have pw : (18 : ℕ) ^ (x.ssize + cb.ssize) ≤
                18 ^ (x.ssize + (1 + ca.ssize + cb.ssize)) := pow18_le (by omega)
            omega
          obtain ⟨o2, ho2⟩ := Option.isSome_iff_exists.mp (ihR x (Length.Calc cb) hφ2)
          simp only
          rw [ho2]
          cases o2 with
          | some res =>
            obtain ⟨hs1, ht1⟩ := (Length.addBounds n).1 x (Length.Calc cb) res ho2
            have hφ3 : Length.phiB (Length.Calc ca) res ≤ n := by
              simp only [Length.phiR, Length.phiA, Length.phiB, Length.ssize, CalcLength.ssize,
                Length.tsize, CalcLength.tsize] at hphi hs1 ht1 ⊢
              have pw : (18 : ℕ) ^ (ca.ssize + res.ssize) + 18 ^ (x.ssize + cb.ssize) + 16 ≤
                  18 ^ (x.ssize + (1 + ca.ssize + cb.ssize)) :=
                pow18_two_slack (by omega) (by omega)
              omega
            obtain ⟨r2, hr2⟩ := Option.isSome_iff_exists.mp (ihB (Length.Calc ca) res hφ3)
            simp [hr2]
          | none => simp
      · simp
    · intro x y hphi
      simp only [Length.addBuildF]
      split
      · simp
      · split
        · simp
        · cases hc : (Length.ltNum x 0 && Length.gtNum y 0) <;>
            simp only [hc, Bool.false_eq_true, if_false, if_true, reduceIte]
          · split
            · simp
            · refine ihB _ y ?_
              simp only [Length.phiA, Length.phiB, Length.phiR, Length.ssize,
                CalcLength.ssize, Length.tsize, CalcLength.tsize] at hphi ⊢
              omega
            · refine ihB x _ ?_
              simp only [Length.phiA, Length.phiB, Length.phiR, Length.ssize,
                CalcLength.ssize, Length.tsize, CalcLength.tsize] at hphi ⊢
              omega
            · simp
          · split
            · simp
            · refine ihB _ x ?_
              simp only [Length.phiA, Length.phiB, Length.phiR, Length.ssize,
                CalcLength.ssize, Length.tsize, CalcLength.tsize] at hphi ⊢
              rw [hcm] at hphi
              omega
            · refine ihB y _ ?_
              simp only [Length.phiA, Length.phiB, Length.phiR, Length.ssize,
                CalcLength.ssize, Length.tsize, CalcLength.tsize] at hphi ⊢
              rw [hcm] at hphi
              omega
            · simp
    · intro x y hphi
      simp only [Length.addF]
      have hφ1 : Length.phiR x y ≤ n := by
        simp only [Length.phiA, Length.phiR] at hphi ⊢
        omega
      obtain ⟨o, ho⟩ := Option.isSome_iff_exists.mp (ihR x y hφ1)
      rw [ho]
      cases o with
      | some res => simp
      | none =>
        refine ihB x y ?_
        simp only [Length.phiA, Length.phiB, Length.phiR] at hphi ⊢
        omega

set_option maxHeartbeats 1000000 in
theorem LengthPercentage.addSuff_lp : ∀ n : ℕ,
    (∀ x y, LengthPercentage.phiR x y ≤ n → (LengthPercentage.addRecF n x y).isSome) ∧
    (∀ x y, LengthPercentage.phiB x y ≤ n → (LengthPercentage.addBuildF n x y).isSome) ∧
    (∀ x y, LengthPercentage.phiA x y ≤ n → (LengthPercentage.addF n x y).isSome) := by
  intro n
  induction n with
  | zero =>
    refine ⟨?_, ?_, ?_⟩ <;> intro x y hphi <;> exfalso <;>
      have h1 : 1 ≤ (18 : ℕ) ^ (x.ssize + y.ssize) := Nat.one_le_pow _ _ (by norm_num) <;>
      simp only [LengthPercentage.phiR, LengthPercentage.phiB, LengthPercentage.phiA]
        at hphi <;> omega
  | succ n ih =>
    obtain ⟨ihR, ihB, ihA⟩ := ih
    have hcm : ∀ a b : ℕ, (18 : ℕ) ^ (a + b) = 18 ^ (b + a) := fun a b => by
      rw [Nat.add_comm]
    refine ⟨?_, ?_, ?_⟩
    · intro x y hphi
      simp only [LengthPercentage.addRecF]
      split
      · rename_i a b
        have h1 : (Length.addRecF n a b).isSome := by
          refine (Length.addSuff n).1 a b ?_
          simp only [LengthPercentage.phiR, Length.phiR, LengthPercentage.ssize,
            LengthPercentage.tsize] at hphi ⊢
          omega
        obtain ⟨o, ho⟩ := Option.isSome_iff_exists.mp h1
        rw [ho]
        cases o <;> simp
      · simp
      · rename_i v
        have h1 : (LengthPercentage.addRecF n v y).isSome := by
          refine ihR v y ?_
          simp only [LengthPercentage.phiR, LengthPercentage.ssize, CalcLP.ssize,
            LengthPercentage.tsize, CalcLP.tsize] at hphi ⊢
          omega
        obtain ⟨o, ho⟩ := Option.isSome_iff_exists.mp h1
        simp [ho]
      · rename_i v hx
        have h1 : (LengthPercentage.addRecF n x v).isSome := by
          refine ihR x v ?_
          simp only [LengthPercentage.phiR, LengthPercentage.ssize, CalcLP.ssize,
            LengthPercentage.tsize, CalcLP.tsize] at hphi ⊢
          omega
        obtain ⟨o, ho⟩ := Option.isSome_iff_exists.mp h1
        simp [ho]
      · rename_i ca cb hy1
        have hb1 := CalcLP.one_le_ssize_clp ca
        have hb2 := CalcLP.one_le_ssize_clp cb
        have hφ1 : LengthPercentage.phiR (LengthPercentage.Calc ca) y ≤ n := by
          simp only [LengthPercentage.phiR, LengthPercentage.ssize, CalcLP.ssize,
            LengthPercentage.tsize, CalcLP.tsize] at hphi ⊢
          have pw : (18 : ℕ) ^ (ca.ssize + y.ssize) ≤
              18 ^ (1 + ca.ssize + cb.ssize + y.ssize) := pow18_le (by omega)
          omega
        obtain ⟨o, ho⟩ := Option.isSome_iff_exists.mp (ihR (LengthPercentage.Calc ca) y hφ1)
        rw [ho]
        cases o with
        | some res =>
          obtain ⟨hs1, ht1⟩ := (LengthPercentage.addBounds_lp n).1 (LengthPercentage.Calc ca) y res ho
          have hφ2 : LengthPercentage.phiB res (LengthPercentage.Calc cb) ≤ n := by
            simp only [LengthPercentage.phiR, LengthPercentage.phiA, LengthPercentage.phiB, LengthPercentage.ssize,
              CalcLP.ssize, LengthPercentage.tsize, CalcLP.tsize] at hphi hs1 ht1 ⊢
            have pw : (18 : ℕ) ^ (res.ssize + cb.ssize) + 18 ^ (ca.ssize + y.ssize) + 16 ≤
                18 ^ (1 + ca.ssize + cb.ssize + y.ssize) :=
              pow18_two_slack (by omega) (by omega)
            omega
          obtain ⟨r2, hr2⟩ :=
            Option.isSome_iff_exists.mp (ihB res (LengthPercentage.Calc cb) hφ2)
          simp [hr2]
        | none =>
          have hφ2 : LengthPercentage.phiR (LengthPercentage.Calc cb) y ≤ n := by
            simp only [LengthPercentage.phiR, LengthPercentage.ssize, CalcLP.ssize,
              LengthPercentage.tsize, CalcLP.tsize] at hphi ⊢
            have pw : (18 : ℕ) ^ (cb.ssize + y.ssize) ≤
                18 ^ (1 + ca.ssize + cb.ssize + y.ssize) := pow18_le (by omega)
            omega
          obtain ⟨o2, ho2⟩ :=
            Option.isSome_iff_exists.mp (ihR (LengthPercentage.Calc cb) y hφ2)
          simp only
          rw [ho2]
          cases o2 with
          | some res =>
            obtain ⟨hs1, ht1⟩ :=
              (LengthPercentage.addBounds_lp n).1 (LengthPercentage.Calc cb) y res ho2
            have hφ3 : LengthPercentage.phiB (LengthPercentage.Calc ca) res ≤ n := by
              simp only [LengthPercentage.phiR, LengthPercentage.phiA, LengthPercentage.phiB, LengthPercentage.ssize,
                CalcLP.ssize, LengthPercentage.tsize, CalcLP.tsize] at hphi hs1 ht1 ⊢
              have pw : (18 : ℕ) ^ (ca.ssize + res.ssize) + 18 ^ (cb.ssize + y.ssize) + 16 ≤
                  18 ^ (1 + ca.ssize + cb.ssize + y.ssize) :=
                pow18_two_slack (by omega) (by omega)
              omega
            obtain ⟨r2, hr2⟩ :=
              Option.isSome_iff_exists.mp (ihB (LengthPercentage.Calc ca) res hφ3)
            simp [hr2]
          | none => simp
      · rename_i ca cb hx1 hx2
        have hb1 := CalcLP.one_le_ssize_clp ca
        have hb2 := CalcLP.one_le_ssize_clp cb
        have hφ1 : LengthPercentage.phiR x (LengthPercentage.Calc ca) ≤ n := by
          simp only [LengthPercentage.phiR, LengthPercentage.ssize, CalcLP.ssize,
            LengthPercentage.tsize, CalcLP.tsize] at hphi ⊢
          have pw : (18 : ℕ) ^ (x.ssize + ca.ssize) ≤
              18 ^ (x.ssize + (1 + ca.ssize + cb.ssize)) := pow18_le (by omega)
          omega
        obtain ⟨o, ho⟩ := Option.isSome_iff_exists.mp (ihR x (LengthPercentage.Calc ca) hφ1)
        rw [ho]
        cases o with
        | some res =>
          obtain ⟨hs1, ht1⟩ := (LengthPercentage.addBounds_lp n).1 x (LengthPercentage.Calc ca) res ho
          have hφ2 : LengthPercentage.phiB res (LengthPercentage.Calc cb) ≤ n := by
            simp only [LengthPercentage.phiR, LengthPercentage.phiA, LengthPercentage.phiB, LengthPercentage.ssize,
              CalcLP.ssize, LengthPercentage.tsize, CalcLP.tsize] at hphi hs1 ht1 ⊢
            have pw : (18 : ℕ) ^ (res.ssize + cb.ssize) + 18 ^ (x.ssize + ca.ssize) + 16 ≤
                18 ^ (x.ssize + (1 + ca.ssize + cb.ssize)) :=
              pow18_two_slack (by omega) (by omega)
            omega
          obtain ⟨r2, hr2⟩ :=
            Option.isSome_iff_exists.mp (ihB res (LengthPercentage.Calc cb) hφ2)
          simp [hr2]
        | none =>
          have hφ2 : LengthPercentage.phiR x (LengthPercentage.Calc cb) ≤ n := by
            simp only [LengthPercentage.phiR, LengthPercentage.ssize, CalcLP.ssize,
              LengthPercentage.tsize, CalcLP.tsize] at hphi ⊢
            have pw : (18 : ℕ) ^ (x.ssize + cb.ssize) ≤
                18 ^ (x.ssize + (1 + ca.ssize + cb.ssize)) := pow18_le (by omega)
            omega
          obtain ⟨o2, ho2⟩ :=
            Option.isSome_iff_exists.mp (ihR x (LengthPercentage.Calc cb) hφ2)
          simp only
          rw [ho2]
          cases o2 with
          | some res =>
            obtain ⟨hs1, ht1⟩ :=
              (LengthPercentage.addBounds_lp n).1 x (LengthPercentage.Calc cb) res ho2
            have hφ3 : LengthPercentage.phiB (LengthPercentage.Calc ca) res ≤ n := by
              simp only [LengthPercentage.phiR, LengthPercentage.phiA, LengthPercentage.phiB, LengthPercentage.ssize,
                CalcLP.ssize, LengthPercentage.tsize, CalcLP.tsize] at hphi hs1 ht1 ⊢
              have pw : (18 : ℕ) ^ (ca.ssize + res.ssize) + 18 ^ (x.ssize + cb.ssize) + 16 ≤
                  18 ^ (x.ssize + (1 + ca.ssize + cb.ssize)) :=
                pow18_two_slack (by omega) (by omega)
              omega
            obtain ⟨r2, hr2⟩ :=
              Option.isSome_iff_exists.mp (ihB (LengthPercentage.Calc ca) res hφ3)
            simp [hr2]
          | none => simp
      · simp
    · intro x y hphi
      simp only [LengthPercentage.addBuildF]
      split
      · simp
      · split
        · simp
        · cases hc : (LengthPercentage.ltNum x 0 && LengthPercentage.gtNum y 0) <;>
            simp only [hc, Bool.false_eq_true, if_false, if_true, reduceIte]
          · split
            · simp
            · refine ihB _ y ?_
              simp only [LengthPercentage.phiA, LengthPercentage.phiB, LengthPercentage.phiR,
                LengthPercentage.ssize, CalcLP.ssize, LengthPercentage.tsize,
                CalcLP.tsize] at hphi ⊢
              omega
            · refine ihB x _ ?_
              simp only [LengthPercentage.phiA, LengthPercentage.phiB, LengthPercentage.phiR,
                LengthPercentage.ssize, CalcLP.ssize, LengthPercentage.tsize,
                CalcLP.tsize] at hphi ⊢
              omega
            · simp
          · split
            · simp
            · refine ihB _ x ?_
              simp only [LengthPercentage.phiA, LengthPercentage.phiB, LengthPercentage.phiR,
                LengthPercentage.ssize, CalcLP.ssize, LengthPercentage.tsize,
                CalcLP.tsize] at hphi ⊢
              rw [hcm] at hphi
              omega
            · refine ihB y _ ?_
              simp only [LengthPercentage.phiA, LengthPercentage.phiB, LengthPercentage.phiR,
                LengthPercentage.ssize, CalcLP.ssize, LengthPercentage.tsize,
                CalcLP.tsize] at hphi ⊢
              rw [hcm] at hphi
              omega
            · simp
    · intro x y hphi
      simp only [LengthPercentage.addF]
      have hφ1 : LengthPercentage.phiR x y ≤ n := by
        simp only [LengthPercentage.phiA, LengthPercentage.phiR] at hphi ⊢
        omega
      obtain ⟨o, ho⟩ := Option.isSome_iff_exists.mp (ihR x y hφ1)
      rw [ho]
      cases o with
      | some res => simp
      | none =>
        refine ihB x y ?_
        simp only [LengthPercentage.phiA, LengthPercentage.phiB, LengthPercentage.phiR]
          at hphi ⊢
        omega

/-- The sufficient fuel `phiA` always yields a result, so the public wrapper
`Length.add` is exactly the value computed by the source's recursion. -/
theorem Length.addF_phiA (x y : Length) :
    Length.addF (Length.phiA x y) x y = some (Length.add x y) := by
  obtain ⟨r, hr⟩ := Option.isSome_iff_exists.mp ((Length.addSuff _).2.2 x y (le_refl _))
  simp [Length.add, hr]

/-- The sufficient fuel always yields a result at the `LengthPercentage` level. -/
theorem LengthPercentage.addF_phiA_lp (x y : LengthPercentage) :
    LengthPercentage.addF (LengthPercentage.phiA x y) x y =
      some (LengthPercentage.add x y) := by
  obtain ⟨r, hr⟩ :=
    Option.isSome_iff_exists.mp ((LengthPercentage.addSuff_lp _).2.2 x y (le_refl _))
  simp [LengthPercentage.add, hr]

/-- Successor-fuel equation of the public addition. -/
theorem Length.addF_succ (n : ℕ) (x y : Length) :
    Length.addF (n + 1) x y =
      (match Length.addRecF n x y with
       | none => none
       | some (some r) => some r
       | some none => Length.addBuildF n x y) := rfl

/-- Successor-fuel equation of the build phase, spelling out identity elision,
the sign-based swap, and tree construction. -/
theorem Length.addBuildF_succ (n : ℕ) (x y : Length) :
    Length.addBuildF (n + 1) x y =
      (if Length.eqNum x 0 then some y
       else if Length.eqNum y 0 then some x
       else
         match (if Length.ltNum x 0 && Length.gtNum y 0 then y else x),
             (if Length.ltNum x 0 && Length.gtNum y 0 then x else y) with
         | .Calc ca, .Calc cb => some (.Calc (ca.addCalc cb))
         | .Calc (.Value va), b2 => Length.addBuildF n va b2
         | a2, .Calc (.Value vb) => Length.addBuildF n a2 vb
         | a2, b2 => some (.Calc (.Sum a2.intoCalc b2.intoCalc))) := rfl

/-- When the fold succeeds at sufficient fuel, the public addition returns the
folded value. -/
theorem Length.add_eq_fold (x y r : Length)
    (h : Length.addRecF (Length.phiR x y + 1) x y = some (some r)) :
    Length.add x y = r := by
  show (Length.addF (Length.phiR x y + 1 + 1) x y).getD x = r
  rw [Length.addF_succ, h]
  rfl

/-- When the fold fails at sufficient fuel, the public addition is the build
phase. -/
theorem Length.add_eq_build (x y : Length)
    (h : Length.addRecF (Length.phiR x y + 1) x y = some none) :
    Length.add x y = (Length.addBuildF (Length.phiR x y + 1) x y).getD x := by
  show (Length.addF (Length.phiR x y + 1 + 1) x y).getD x = _
  rw [Length.addF_succ, h]

/-- Fold equation on two absolute literals: always folds through
`AbsoluteLength::add`. -/
theorem Length.addRecF_absabs (n : ℕ) (a b : AbsoluteLength) :
    Length.addRecF (n + 1) (.Absolute a) (.Absolute b) =
      some (some (.Absolute (a.add b))) := rfl

/-- Fold equation on two relative literals: mirrors
`RelativeLength::add_recursive`. -/
theorem Length.addRecF_relrel (n : ℕ) (r1 r2 : RelativeLength) :
    Length.addRecF (n + 1) (.Relative r1) (.Relative r2) =
      some ((r1.add_recursive r2).map Length.Relative) := by
  cases h12 : r1.add_recursive r2 <;> simp [Length.addRecF, h12]

/-- A relative and an absolute literal never fold. -/
theorem Length.addRecF_relabs (n : ℕ) (r1 : RelativeLength) (a : AbsoluteLength) :
    Length.addRecF (n + 1) (.Relative r1) (.Absolute a) = some none := rfl

/-- An absolute and a relative literal never fold. -/
theorem Length.addRecF_absrel (n : ℕ) (a : AbsoluteLength) (r1 : RelativeLength) :
    Length.addRecF (n + 1) (.Absolute a) (.Relative r1) = some none := rfl

/-- Successor-fuel equation of the `LengthPercentage` public addition. -/
theorem LengthPercentage.addF_succ_lp (n : ℕ) (x y : LengthPercentage) :
    LengthPercentage.addF (n + 1) x y =
      (match LengthPercentage.addRecF n x y with
       | none => none
       | some (some r) => some r
       | some none => LengthPercentage.addBuildF n x y) := rfl

/-- Successor-fuel equation of the `LengthPercentage` build phase. -/
theorem LengthPercentage.addBuildF_succ_lp (n : ℕ) (x y : LengthPercentage) :
    LengthPercentage.addBuildF (n + 1) x y =
      (if LengthPercentage.eqNum x 0 then some y
       else if LengthPercentage.eqNum y 0 then some x
       else
         match (if LengthPercentage.ltNum x 0 && LengthPercentage.gtNum y 0 then y else x),
             (if LengthPercentage.ltNum x 0 && LengthPercentage.gtNum y 0 then x else y) with
         | .Calc ca, .Calc cb => some (.Calc (ca.addCalc cb))
         | .Calc (.Value va), b2 => LengthPercentage.addBuildF n va b2
         | a2, .Calc (.Value vb) => LengthPercentage.addBuildF n a2 vb
         | a2, b2 => some (.Calc (.Sum a2.intoCalc b2.intoCalc))) := rfl

/-- When the `LengthPercentage` fold succeeds at sufficient fuel, the public
addition returns the folded value. -/
theorem LengthPercentage.add_eq_fold_lp (x y r : LengthPercentage)
    (h : LengthPercentage.addRecF (LengthPercentage.phiR x y + 1) x y = some (some r)) :
    LengthPercentage.add x y = r := by
  show (LengthPercentage.addF (LengthPercentage.phiR x y + 1 + 1) x y).getD x = r
  rw [LengthPercentage.addF_succ_lp, h]
  rfl

/-- When the `LengthPercentage` fold fails at sufficient fuel, the public
addition is the build phase. -/
theorem LengthPercentage.add_eq_build_lp (x y : LengthPercentage)
    (h : LengthPercentage.addRecF (LengthPercentage.phiR x y + 1) x y = some none) :
    LengthPercentage.add x y =
      (LengthPercentage.addBuildF (LengthPercentage.phiR x y + 1) x y).getD x := by
  show (LengthPercentage.addF (LengthPercentage.phiR x y + 1 + 1) x y).getD x = _
  rw [LengthPercentage.addF_succ_lp, h]

/-- The `Length`+`Length` arm of the `LengthPercentage` fold delegates to the
`Length` fold, at every fuel level. -/
theorem lpAddRecF_lenlen (n : ℕ) (l1 l2 : Length) :
    LengthPercentage.addRecF (n + 1) (.Length l1) (.Length l2) =
      (Length.addRecF n l1 l2).map (Option.map LengthPercentage.Length) := by
  rcases h12 : Length.addRecF n l1 l2 with _ | _ | res <;>
    simp [LengthPercentage.addRecF, h12]

/-- Two percentages always fold to the direct ratio sum. -/
theorem lpAddRecF_perper (n : ℕ) (p q : ℚ) :
    LengthPercentage.addRecF (n + 1) (.Percentage p) (.Percentage q) =
      some (some (.Percentage (p + q))) := rfl

/-- A length and a percentage never fold. -/
theorem lpAddRecF_lenper (n : ℕ) (l : Length) (p : ℚ) :
    LengthPercentage.addRecF (n + 1) (.Length l) (.Percentage p) = some none := rfl

/-- A percentage and a length never fold. -/
theorem lpAddRecF_perlen (n : ℕ) (p : ℚ) (l : Length) :
    LengthPercentage.addRecF (n + 1) (.Percentage p) (.Length l) = some none := rfl


theorem Length.eqNum_abs (a : AbsoluteLength) (q : ℚ) :
    Length.eqNum (.Absolute a) q = decide (a.val = q) := rfl

theorem Length.eqNum_rel (r : RelativeLength) (q : ℚ) :
    Length.eqNum (.Relative r) q = decide (r.val = q) := rfl

theorem Length.ltNum_abs (a : AbsoluteLength) (q : ℚ) :
    Length.ltNum (.Absolute a) q = decide (a.val < q) := by
  simp only [Length.ltNum, Length.partialCmpNum, cmpRat]
  by_cases h1 : a.val < q
  · simp [h1]
    try rfl
  · by_cases h2 : a.val = q <;> (simp [h1, h2]; try rfl)

theorem Length.ltNum_rel (r : RelativeLength) (q : ℚ) :
    Length.ltNum (.Relative r) q = decide (r.val < q) := by
  simp only [Length.ltNum, Length.partialCmpNum, cmpRat]
  by_cases h1 : r.val < q
  · simp [h1]
    try rfl
  · by_cases h2 : r.val = q <;> (simp [h1, h2]; try rfl)

theorem Length.gtNum_abs (a : AbsoluteLength) (q : ℚ) :
    Length.gtNum (.Absolute a) q = decide (q < a.val) := by
  simp only [Length.gtNum, Length.partialCmpNum, cmpRat]
  by_cases h1 : a.val < q
  · simp [h1, not_lt_of_gt h1, asymm h1]
    try rfl
  · by_cases h2 : a.val = q
    · simp [h1, h2]
      try rfl
    · have h3 : q < a.val := by
        rcases lt_trichotomy a.val q with h | h | h
        · exact absurd h h1
        · exact absurd h h2
        · exact h
      simp [h1, h2, h3]
      try rfl

theorem Length.gtNum_rel (r : RelativeLength) (q : ℚ) :
    Length.gtNum (.Relative r) q = decide (q < r.val) := by
  simp only [Length.gtNum, Length.partialCmpNum, cmpRat]
  by_cases h1 : r.val < q
  · simp [h1, not_lt_of_gt h1, asymm h1]
    try rfl
  · by_cases h2 : r.val = q
    · simp [h1, h2]
      try rfl
    · have h3 : q < r.val := by
        rcases lt_trichotomy r.val q with h | h | h
        · exact absurd h h1
        · exact absurd h h2
        · exact h
      simp [h1, h2, h3]
      try rfl

/-- A calc expression never compares equal to a bare number. -/
theorem Length.eqNum_calc (c : CalcLength) (q : ℚ) :
    Length.eqNum (.Calc c) q = false := rfl

/-- A calc expression is never ordered below a bare number. -/
theorem Length.ltNum_calc (c : CalcLength) (q : ℚ) :
    Length.ltNum (.Calc c) q = false := rfl

/-- A calc expression is never ordered above a bare number. -/
theorem Length.gtNum_calc (c : CalcLength) (q : ℚ) :
    Length.gtNum (.Calc c) q = false := rfl

/-- Two absolute literals always fold through `AbsoluteLength::add`. -/
theorem Length.add_absabs (a b : AbsoluteLength) :
    Length.add (.Absolute a) (.Absolute b) = .Absolute (a.add b) :=
  Length.add_eq_fold _ _ _ (Length.addRecF_absabs _ a b)

/-- Distinct absolute unit tags fold to canonical pixels. -/
theorem AbsoluteLength.add_distinct (a b : AbsoluteLength) (h : a.tag ≠ b.tag) :
    a.add b = .Px (a.to_px + b.to_px) := by
  cases a <;> cases b <;> first | rfl | simp [AbsoluteLength.tag] at h

/-- Two relative literals with a successful `RelativeLength::add_recursive`
fold to that literal. -/
theorem Length.add_relrel_fold (r1 r2 s : RelativeLength)
    (h : r1.add_recursive r2 = some s) :
    Length.add (.Relative r1) (.Relative r2) = .Relative s := by
  refine Length.add_eq_fold _ _ _ ?_
  rw [Length.addRecF_relrel, h]
  rfl

/-- Build-phase outcome on two relative literals whose fold fails. -/
theorem Length.add_relrel_build (r1 r2 : RelativeLength)
    (h : r1.add_recursive r2 = none) :
    Length.add (.Relative r1) (.Relative r2) =
      if r1.val = 0 then .Relative r2
      else if r2.val = 0 then .Relative r1
      else if r1.val < 0 ∧ 0 < r2.val then
        .Calc (.Sum (.Value (.Relative r2)) (.Value (.Relative r1)))
      else .Calc (.Sum (.Value (.Relative r1)) (.Value (.Relative r2))) := by
  rw [Length.add_eq_build _ _ (by rw [Length.addRecF_relrel, h]; rfl)]
  rw [Length.addBuildF_succ, Length.eqNum_rel, Length.eqNum_rel, Length.ltNum_rel,
    Length.gtNum_rel]
  by_cases h1 : r1.val = 0
  · simp [h1]
  · by_cases h2 : r2.val = 0
    · simp [h1, h2]
    · by_cases h3 : r1.val < 0 ∧ 0 < r2.val
      · simp [h1, h2, h3.1, h3.2, Length.intoCalc]
      · have hb : (decide (r1.val < 0) && decide (0 < r2.val)) = false := by
          rcases not_and_or.mp h3 with h4 | h4 <;> simp [h4]
        simp [h1, h2, h3, hb, Length.intoCalc]

/-- Build-phase outcome on a relative and an absolute literal (never folds). -/
theorem Length.add_relabs (rl : RelativeLength) (a : AbsoluteLength) :
    Length.add (.Relative rl) (.Absolute a) =
      if rl.val = 0 then .Absolute a
      else if a.val = 0 then .Relative rl
      else if rl.val < 0 ∧ 0 < a.val then
        .Calc (.Sum (.Value (.Absolute a)) (.Value (.Relative rl)))
      else .Calc (.Sum (.Value (.Relative rl)) (.Value (.Absolute a))) := by
  rw [Length.add_eq_build _ _ (Length.addRecF_relabs _ _ _)]
  rw [Length.addBuildF_succ, Length.eqNum_rel, Length.eqNum_abs, Length.ltNum_rel,
    Length.gtNum_abs]
  by_cases h1 : rl.val = 0
  · simp [h1]
  · by_cases h2 : a.val = 0
    · simp [h1, h2]
    · by_cases h3 : rl.val < 0 ∧ 0 < a.val
      · simp [h1, h2, h3.1, h3.2, Length.intoCalc]
      · have hb : (decide (rl.val < 0) && decide (0 < a.val)) = false := by
          rcases not_and_or.mp h3 with h4 | h4 <;> simp [h4]
        simp [h1, h2, h3, hb, Length.intoCalc]

/-- Build-phase outcome on an absolute and a relative literal (never folds). -/
theorem Length.add_absrel (a : AbsoluteLength) (rl : RelativeLength) :
    Length.add (.Absolute a) (.Relative rl) =
      if a.val = 0 then .Relative rl
      else if rl.val = 0 then .Absolute a
      else if a.val < 0 ∧ 0 < rl.val then
        .Calc (.Sum (.Value (.Relative rl)) (.Value (.Absolute a)))
      else .Calc (.Sum (.Value (.Absolute a)) (.Value (.Relative rl))) := by
  rw [Length.add_eq_build _ _ (Length.addRecF_absrel _ _ _)]
  rw [Length.addBuildF_succ, Length.eqNum_rel, Length.eqNum_abs, Length.ltNum_abs,
    Length.gtNum_rel]
  by_cases h1 : a.val = 0
  · simp [h1]
  · by_cases h2 : rl.val = 0
    · simp [h1, h2]
    · by_cases h3 : a.val < 0 ∧ 0 < rl.val
      · simp [h1, h2, h3.1, h3.2, Length.intoCalc]
      · have hb : (decide (a.val < 0) && decide (0 < rl.val)) = false := by
          rcases not_and_or.mp h3 with h4 | h4 <;> simp [h4]
        simp [h1, h2, h3, hb, Length.intoCalc]

/-- The `== 0.0` test on a percentage leaf compares the raw ratio. -/
theorem lpEqNum_per (p q : ℚ) :
    LengthPercentage.eqNum (.Percentage p) q = decide (p = q) := rfl

/-- The `< 0.0` test on a percentage leaf is the ratio comparison. -/
theorem lpLtNum_per (p q : ℚ) :
    LengthPercentage.ltNum (.Percentage p) q = decide (p < q) := by
  simp only [LengthPercentage.ltNum, LengthPercentage.partialCmpNum, cmpRat]
  by_cases h1 : p < q
  · simp [h1]
    try rfl
  · by_cases h2 : p = q <;> (simp [h1, h2]; try rfl)

/-- The `> 0.0` test on a percentage leaf is the ratio comparison. -/
theorem lpGtNum_per (p q : ℚ) :
    LengthPercentage.gtNum (.Percentage p) q = decide (q < p) := by
  simp only [LengthPercentage.gtNum, LengthPercentage.partialCmpNum, cmpRat]
  by_cases h1 : p < q
  · simp [h1, not_lt_of_gt h1, asymm h1]
    try rfl
  · by_cases h2 : p = q
    · simp [h1, h2]
      try rfl
    · have h3 : q < p := by
        rcases lt_trichotomy p q with h | h | h
        · exact absurd h h1
        · exact absurd h h2
        · exact h
      simp [h1, h2, h3]
      try rfl

/-- Two percentage leaves always fold to the direct ratio sum. -/
theorem lpAdd_perper (p q : ℚ) :
    LengthPercentage.add (.Percentage p) (.Percentage q) = .Percentage (p + q) :=
  LengthPercentage.add_eq_fold_lp _ _ _ (lpAddRecF_perper _ p q)

/-- Build-phase outcome on a length and a percentage (never folds). -/
theorem lpAdd_lenper (l : Length) (p : ℚ) :
    LengthPercentage.add (.Length l) (.Percentage p) =
      if Length.eqNum l 0 then .Percentage p
      else if p = 0 then .Length l
      else if (Length.ltNum l 0 && decide (0 < p)) = true then
        .Calc (.Sum (.Value (.Percentage p)) (.Value (.Length l)))
      else .Calc (.Sum (.Value (.Length l)) (.Value (.Percentage p))) := by
  rw [LengthPercentage.add_eq_build_lp _ _ (lpAddRecF_lenper _ l p)]
  rw [LengthPercentage.addBuildF_succ_lp]
  have he1 : LengthPercentage.eqNum (.Length l) 0 = Length.eqNum l 0 := rfl
  have he2 : LengthPercentage.ltNum (.Length l) 0 = Length.ltNum l 0 := rfl
  have he3 : LengthPercentage.gtNum (.Percentage p) 0 = decide (0 < p) := lpGtNum_per p 0
  rw [he1, he2, lpEqNum_per, he3]
  by_cases h1 : Length.eqNum l 0
  · simp [h1]
  · by_cases h2 : p = 0
    · simp [h1, h2]
    · by_cases h3 : (Length.ltNum l 0 && decide (0 < p)) = true
      · rcases l with a | rl | c <;>
          simp [h1, h2, h3, Length.intoCalc, LengthPercentage.intoCalc]
      · rcases l with a | rl | c <;>
          simp [h1, h2, h3, Length.intoCalc, LengthPercentage.intoCalc]

/-- Build-phase outcome on a percentage and a length (never folds). -/
theorem lpAdd_perlen (p : ℚ) (l : Length) :
    LengthPercentage.add (.Percentage p) (.Length l) =
      if p = 0 then .Length l
      else if Length.eqNum l 0 then .Percentage p
      else if (decide (p < 0) && Length.gtNum l 0) = true then
        .Calc (.Sum (.Value (.Length l)) (.Value (.Percentage p)))
      else .Calc (.Sum (.Value (.Percentage p)) (.Value (.Length l))) := by
  rw [LengthPercentage.add_eq_build_lp _ _ (lpAddRecF_perlen _ p l)]
  rw [LengthPercentage.addBuildF_succ_lp]
  have he1 : LengthPercentage.eqNum (.Length l) 0 = Length.eqNum l 0 := rfl
  have he2 : LengthPercentage.gtNum (.Length l) 0 = Length.gtNum l 0 := rfl
  have he3 : LengthPercentage.ltNum (.Percentage p) 0 = decide (p < 0) := lpLtNum_per p 0
  rw [he1, he2, lpEqNum_per, he3]
  by_cases h1 : p = 0
  · simp [h1]
  · by_cases h2 : Length.eqNum l 0
    · simp [h1, h2]
    · by_cases h3 : (decide (p < 0) && Length.gtNum l 0) = true
      · rcases l with a | rl | c <;>
          simp [h1, h2, h3, Length.intoCalc, LengthPercentage.intoCalc]
      · rcases l with a | rl | c <;>
          simp [h1, h2, h3, Length.intoCalc, LengthPercentage.intoCalc]

/-- C4: adding two absolute length literals always folds to a single absolute
literal; matching unit tags add magnitudes directly under the same tag;
distinct tags convert both operands to canonical pixels and add; and for
distinct units the addition agrees with first converting both operands to
pixels. -/
theorem c4_absolute_fold :
    (∀ a b : AbsoluteLength,
      Length.add (.Absolute a) (.Absolute b) = .Absolute (a.add b)) ∧
    (∀ v w : ℚ, AbsoluteLength.add (.Px v) (.Px w) = .Px (v + w)) ∧
    (∀ v w : ℚ, AbsoluteLength.add (.In v) (.In w) = .In (v + w)) ∧
    (∀ v w : ℚ, AbsoluteLength.add (.Cm v) (.Cm w) = .Cm (v + w)) ∧
    (∀ v w : ℚ, AbsoluteLength.add (.Mm v) (.Mm w) = .Mm (v + w)) ∧
    (∀ v w : ℚ, AbsoluteLength.add (.Q v) (.Q w) = .Q (v + w)) ∧
    (∀ v w : ℚ, AbsoluteLength.add (.Pt v) (.Pt w) = .Pt (v + w)) ∧
    (∀ v w : ℚ, AbsoluteLength.add (.Pc v) (.Pc w) = .Pc (v + w)) ∧
    (∀ a b : AbsoluteLength, a.tag ≠ b.tag → a.add b = .Px (a.to_px + b.to_px)) ∧
    (∀ a b : AbsoluteLength, a.tag ≠ b.tag →
      Length.add (.Absolute a) (.Absolute b) =
        Length.add (.Absolute (.Px a.to_px)) (.Absolute (.Px b.to_px))) := by
  refine ⟨Length.add_absabs, fun v w => rfl, fun v w => rfl, fun v w => rfl,
    fun v w => rfl, fun v w => rfl, fun v w => rfl, fun v w => rfl,
    AbsoluteLength.add_distinct, ?_⟩
  intro a b h
  rw [Length.add_absabs, Length.add_absabs, AbsoluteLength.add_distinct a b h]
  show _ = Length.Absolute (.Px (a.to_px + b.to_px))
  rfl

/-- Fuel never falls below the base amount. -/
theorem Length.phiR_ge (x y : Length) : 324 ≤ Length.phiR x y := by
  have h1 := Length.one_le_ssize x
  have h2 := Length.one_le_ssize y
  have h3 := pow18_le (show 2 ≤ x.ssize + y.ssize by omega)
  have h4 : (18 : ℕ) ^ 2 = 324 := by norm_num
  simp only [Length.phiR]
  omega

/-- Fuel never falls below the base amount, `LengthPercentage` level. -/
theorem LengthPercentage.phiR_ge_lp (x y : LengthPercentage) :
    324 ≤ LengthPercentage.phiR x y := by
  have h1 := LengthPercentage.one_le_ssize_lp x
  have h2 := LengthPercentage.one_le_ssize_lp y
  have h3 := pow18_le (show 2 ≤ x.ssize + y.ssize by omega)
  have h4 : (18 : ℕ) ^ 2 = 324 := by norm_num
  simp only [LengthPercentage.phiR]
  omega

/-- A fold that succeeds uniformly at every fuel offset determines the public
addition. -/
theorem Length.add_eq_fold_off (x y r : Length) (k : ℕ) (hk : k ≤ 324)
    (h : ∀ n, Length.addRecF (n + k) x y = some (some r)) :
    Length.add x y = r := by
  have hge := Length.phiR_ge x y
  refine Length.add_eq_fold x y r ?_
  have e1 : Length.phiR x y + 1 = (Length.phiR x y + 1 - k) + k := by omega
  rw [e1, h]

/-- A fold that fails uniformly, together with a uniform build result,
determines the public addition. -/
theorem Length.add_eq_build_off (x y r : Length) (k j : ℕ) (hk : k ≤ 324) (hj : j ≤ 324)
    (h1 : ∀ n, Length.addRecF (n + k) x y = some none)
    (h2 : ∀ n, Length.addBuildF (n + j) x y = some r) :
    Length.add x y = r := by
  have hge := Length.phiR_ge x y
  have e1 : Length.phiR x y + 1 = (Length.phiR x y + 1 - k) + k := by omega
  rw [Length.add_eq_build x y (by rw [e1, h1])]
  have e2 : Length.phiR x y + 1 = (Length.phiR x y + 1 - j) + j := by omega
  rw [e2, h2]
  rfl

/-- A fold that succeeds uniformly determines the public `LengthPercentage`
addition. -/
theorem lpAdd_eq_fold_off (x y r : LengthPercentage) (k : ℕ) (hk : k ≤ 324)
    (h : ∀ n, LengthPercentage.addRecF (n + k) x y = some (some r)) :
    LengthPercentage.add x y = r := by
  have hge := LengthPercentage.phiR_ge_lp x y
  refine LengthPercentage.add_eq_fold_lp x y r ?_
  have e1 : LengthPercentage.phiR x y + 1 = (LengthPercentage.phiR x y + 1 - k) + k := by
    omega
  rw [e1, h]

/-- A failing fold with a uniform build result determines the public
`LengthPercentage` addition. -/
theorem lpAdd_eq_build_off (x y r : LengthPercentage) (k j : ℕ) (hk : k ≤ 324)
    (hj : j ≤ 324)
    (h1 : ∀ n, LengthPercentage.addRecF (n + k) x y = some none)
    (h2 : ∀ n, LengthPercentage.addBuildF (n + j) x y = some r) :
    LengthPercentage.add x y = r := by
  have hge := LengthPercentage.phiR_ge_lp x y
  have e1 : LengthPercentage.phiR x y + 1 = (LengthPercentage.phiR x y + 1 - k) + k := by
    omega
  rw [LengthPercentage.add_eq_build_lp x y (by rw [e1, h1])]
  have e2 : LengthPercentage.phiR x y + 1 = (LengthPercentage.phiR x y + 1 - j) + j := by
    omega
  rw [e2, h2]
  rfl

/-- C4 witness: `1in + 4px` folds to `100px`, and equals the pixel-converted
addition. -/
theorem c4_absolute_fold_witness :
    AbsoluteLength.add (.In 1) (.Px 4) = .Px 100 ∧
    Length.add (.Absolute (.In 1)) (.Absolute (.Px 4)) =
      Length.add (.Absolute (.Px 96)) (.Absolute (.Px 4)) := by
  obtain ⟨hfold, h2, h3, h4, h5, h6, h7, h8, hdist, hconv⟩ := c4_absolute_fold
  constructor
  · rw [hdist (.In 1) (.Px 4) (by decide)]
    norm_num [AbsoluteLength.to_px, pxPerIn]
  · rw [hconv (.In 1) (.Px 4) (by decide)]
    norm_num [AbsoluteLength.to_px, pxPerIn]

/-- C5 counterexample: adding the relative literals `0em` and `1vw` (distinct
tags) does not return a symbolic `Sum`: identity elision returns the `1vw`
operand directly, refuting the claim that distinct-tag relative addition
always yields a calc `Sum` of the two literals. -/
theorem c5_counterexample :
    Length.add (.Relative (.Em 0)) (.Relative (.Vw 1)) = .Relative (.Vw 1) ∧
    (Length.add (.Relative (.Em 0)) (.Relative (.Vw 1))).isCalc = false := by
  decide

/-- C5 (amended): relative literals with matching tags fold to a single
literal with the summed magnitude; with distinct tags the fold fails, and —
provided both magnitudes are nonzero, so identity elision does not fire —
the addition returns a symbolic `Sum` wrapping the two literals as leaves,
the operands swapped exactly when the left magnitude is negative and the
right is positive. -/
theorem c5_relative_fold :
    (∀ r1 r2 s, RelativeLength.add_recursive r1 r2 = some s →
      Length.add (.Relative r1) (.Relative r2) = .Relative s) ∧
    (∀ v w : ℚ, RelativeLength.add_recursive (.Em v) (.Em w) = some (.Em (v + w))) ∧
    (∀ v w : ℚ, RelativeLength.add_recursive (.Ex v) (.Ex w) = some (.Ex (v + w))) ∧
    (∀ v w : ℚ, RelativeLength.add_recursive (.Ch v) (.Ch w) = some (.Ch (v + w))) ∧
    (∀ v w : ℚ, RelativeLength.add_recursive (.Rem v) (.Rem w) = some (.Rem (v + w))) ∧
    (∀ v w : ℚ, RelativeLength.add_recursive (.Vw v) (.Vw w) = some (.Vw (v + w))) ∧
    (∀ v w : ℚ, RelativeLength.add_recursive (.Vh v) (.Vh w) = some (.Vh (v + w))) ∧
    (∀ v w : ℚ, RelativeLength.add_recursive (.Vmin v) (.Vmin w) = some (.Vmin (v + w))) ∧
    (∀ v w : ℚ, RelativeLength.add_recursive (.Vmax v) (.Vmax w) = some (.Vmax (v + w))) ∧
    (∀ r1 r2 : RelativeLength, r1.tag ≠ r2.tag → r1.add_recursive r2 = none) ∧
    (∀ r1 r2 : RelativeLength, r1.add_recursive r2 = none → r1.val ≠ 0 → r2.val ≠ 0 →
      Length.add (.Relative r1) (.Relative r2) =
        if r1.val < 0 ∧ 0 < r2.val then
          .Calc (.Sum (.Value (.Relative r2)) (.Value (.Relative r1)))
        else .Calc (.Sum (.Value (.Relative r1)) (.Value (.Relative r2)))) := by
  refine ⟨Length.add_relrel_fold, fun v w => rfl, fun v w => rfl, fun v w => rfl,
    fun v w => rfl, fun v w => rfl, fun v w => rfl, fun v w => rfl, fun v w => rfl,
    ?_, ?_⟩
  · intro r1 r2 h
    cases r1 <;> cases r2 <;> first | rfl | simp [RelativeLength.tag] at h
  · intro r1 r2 h h1 h2
    rw [Length.add_relrel_build r1 r2 h]
    simp [h1, h2]

/-- C5 witness: `1em + 1vw` (distinct tags, both nonzero, no swap) produces
the symbolic sum of the two leaves in operand order. -/
theorem c5_relative_fold_witness :
    Length.add (.Relative (.Em 1)) (.Relative (.Vw 1)) =
      .Calc (.Sum (.Value (.Relative (.Em 1))) (.Value (.Relative (.Vw 1)))) := by
  obtain ⟨hf, h2, h3, h4, h5, h6, h7, h8, h9, hd, hb⟩ := c5_relative_fold
  rw [hb (.Em 1) (.Vw 1) (by decide) (by decide) (by decide)]
  decide

/-- C1 counterexample: adding the literal zero (`Length::zero()`, a px
literal) to the absolute literal `1in` folds to the pixel conversion
`Px 96` on either side, so the value is not returned unchanged; and a
symbolic calc operand `calc(-1px + 2em)` is rewritten (its operands are
reordered by the sign-based swap during reattachment), refuting the claim
for both literal and symbolic operands. -/
theorem c1_counterexample :
    Length.add (.Absolute (.In 1)) Length.zero ≠ .Absolute (.In 1) ∧
    Length.add Length.zero (.Absolute (.In 1)) ≠ .Absolute (.In 1) ∧
    Length.add (.Calc (.Sum (.Value (.Absolute (.Px (-1)))) (.Value (.Relative (.Em 2)))))
        Length.zero ≠
      .Calc (.Sum (.Value (.Absolute (.Px (-1)))) (.Value (.Relative (.Em 2)))) := by
  refine ⟨?_, ?_, ?_⟩
  · rw [Length.zero, Length.add_absabs]
    simp [AbsoluteLength.add]
  · rw [Length.zero, Length.add_absabs]
    simp [AbsoluteLength.add]
  · have hX : Length.add
        (.Calc (.Sum (.Value (.Absolute (.Px (-1)))) (.Value (.Relative (.Em 2)))))
        Length.zero =
        .Calc (.Sum (.Value (.Relative (.Em 2))) (.Value (.Absolute (.Px (-1))))) := by
      refine Length.add_eq_fold_off _ _ _ 9 (by norm_num) ?_
      intro n
      norm_num [Length.addRecF, Length.addF, Length.addBuildF, Length.zero,
        Length.eqNum_abs, Length.eqNum_rel, Length.eqNum_calc, Length.ltNum_abs,
        Length.ltNum_rel, Length.ltNum_calc, Length.gtNum_abs, Length.gtNum_rel,
        Length.gtNum_calc, AbsoluteLength.add, AbsoluteLength.val, RelativeLength.val,
        Length.intoCalc]
    rw [hX]
    simp

/-- C1 (amended): `add(X, zero_literal)` and `add(zero_literal, X)` return `X`
unchanged when `X` is a px literal (any magnitude), a relative literal with
nonzero magnitude, or (zero on the left) any relative literal; for an
absolute literal in a non-px unit both additions instead fold to the
numerically equal pixel conversion `Px(to_px X)`.  At the `LengthPercentage`
level the wrapped zero length is elided against any percentage with nonzero
ratio (and against any percentage when the zero is on the left), and px
literals are preserved under the wrapped fold. -/
theorem c1_zero_identity_amended :
    (∀ v : ℚ, Length.add (Length.px v) Length.zero = Length.px v) ∧
    (∀ v : ℚ, Length.add Length.zero (Length.px v) = Length.px v) ∧
    (∀ rl : RelativeLength, Length.add Length.zero (.Relative rl) = .Relative rl) ∧
    (∀ rl : RelativeLength, rl.val ≠ 0 →
      Length.add (.Relative rl) Length.zero = .Relative rl) ∧
    (∀ a : AbsoluteLength, a.tag ≠ 0 →
      Length.add (.Absolute a) Length.zero = .Absolute (.Px a.to_px) ∧
      Length.add Length.zero (.Absolute a) = .Absolute (.Px a.to_px)) ∧
    (∀ p : ℚ, LengthPercentage.add (.Length Length.zero) (.Percentage p) = .Percentage p) ∧
    (∀ p : ℚ, p ≠ 0 →
      LengthPercentage.add (.Percentage p) (.Length Length.zero) = .Percentage p) ∧
    (∀ v : ℚ, LengthPercentage.add (.Length (Length.px v)) (.Length Length.zero) =
      .Length (Length.px v)) := by
  refine ⟨?_, ?_, ?_, ?_, ?_, ?_, ?_, ?_⟩
  · intro v
    simp only [Length.px, Length.zero]
    rw [Length.add_absabs]
    norm_num [AbsoluteLength.add]
  · intro v
    simp only [Length.px, Length.zero]
    rw [Length.add_absabs]
    norm_num [AbsoluteLength.add]
  · intro rl
    simp only [Length.zero]
    rw [Length.add_absrel]
    simp [AbsoluteLength.val]
  · intro rl h
    simp only [Length.zero]
    rw [Length.add_relabs]
    simp [h, AbsoluteLength.val]
  · intro a h
    have htag : (AbsoluteLength.Px (0 : ℚ)).tag = 0 := rfl
    constructor
    · simp only [Length.zero]
      rw [Length.add_absabs, AbsoluteLength.add_distinct a (.Px 0) (by rw [htag]; exact h)]
      norm_num [AbsoluteLength.to_px]
    · simp only [Length.zero]
      rw [Length.add_absabs,
        AbsoluteLength.add_distinct (.Px 0) a (by rw [htag]; exact fun hc => h hc.symm)]
      norm_num [AbsoluteLength.to_px]
  · intro p
    rw [lpAdd_lenper]
    simp [Length.zero, Length.eqNum, AbsoluteLength.val]
  · intro p h
    rw [lpAdd_perlen]
    simp [h, Length.zero, Length.eqNum, AbsoluteLength.val]
  · intro v
    refine lpAdd_eq_fold_off _ _ _ 2 (by norm_num) ?_
    intro n
    norm_num [LengthPercentage.addRecF, Length.addRecF, Length.px, Length.zero,
      AbsoluteLength.add]

/-- C1 witness: the amended identity at `2em`, `1in` and the percentage `1/2`. -/
theorem c1_zero_identity_witness :
    Length.add (.Relative (.Em 2)) Length.zero = .Relative (.Em 2) ∧
    Length.add (.Absolute (.In 1)) Length.zero = .Absolute (.Px 96) ∧
    LengthPercentage.add (.Percentage (1 / 2)) (.Length Length.zero) =
      .Percentage (1 / 2) := by
  obtain ⟨h1, h2, h3, h4, h5, h6, h7, h8⟩ := c1_zero_identity_amended
  refine ⟨h4 (.Em 2) (by norm_num [RelativeLength.val]), ?_, h7 (1 / 2) (by norm_num)⟩
  rw [(h5 (.In 1) (by decide)).1]
  norm_num [AbsoluteLength.to_px, pxPerIn]

/-- C6: `LengthPercentage` fold rules — the `Length`+`Length` fold is exactly
the mapped `Length` fold (at every fuel level); two percentages always fold
to the direct ratio sum; a length and a percentage never fold in either
order and, when identity elision does not fire (neither operand is a literal
zero), the addition produces the symbolic `Sum` of the two operands with the
sign-based ordering applied. -/
theorem c6_lp_fold_rules :
    (∀ (n : ℕ) (l1 l2 : Length),
      LengthPercentage.addRecF (n + 1) (.Length l1) (.Length l2) =
        (Length.addRecF n l1 l2).map (Option.map LengthPercentage.Length)) ∧
    (∀ p q : ℚ,
      LengthPercentage.add (.Percentage p) (.Percentage q) = .Percentage (p + q)) ∧
    (∀ (n : ℕ) (l : Length) (p : ℚ),
      LengthPercentage.addRecF (n + 1) (.Length l) (.Percentage p) = some none ∧
      LengthPercentage.addRecF (n + 1) (.Percentage p) (.Length l) = some none) ∧
    (∀ (l : Length) (p : ℚ), Length.eqNum l 0 = false → p ≠ 0 →
      LengthPercentage.add (.Length l) (.Percentage p) =
        if (Length.ltNum l 0 && decide (0 < p)) = true then
          .Calc (.Sum (.Value (.Percentage p)) (.Value (.Length l)))
        else .Calc (.Sum (.Value (.Length l)) (.Value (.Percentage p)))) ∧
    (∀ (l : Length) (p : ℚ), Length.eqNum l 0 = false → p ≠ 0 →
      LengthPercentage.add (.Percentage p) (.Length l) =
        if (decide (p < 0) && Length.gtNum l 0) = true then
          .Calc (.Sum (.Value (.Length l)) (.Value (.Percentage p)))
        else .Calc (.Sum (.Value (.Percentage p)) (.Value (.Length l)))) := by
  refine ⟨lpAddRecF_lenlen, lpAdd_perper,
    fun n l p => ⟨lpAddRecF_lenper n l p, lpAddRecF_perlen n p l⟩, ?_, ?_⟩
  · intro l p h1 h2
    rw [lpAdd_lenper]
    simp [h1, h2]
  · intro l p h1 h2
    rw [lpAdd_perlen]
    simp [h1, h2]

/-- C6 witness: `1px + 50%` never folds and builds the symbolic sum in
operand order (no swap, both positive). -/
theorem c6_lp_fold_rules_witness :
    LengthPercentage.add (.Length (Length.px 1)) (.Percentage (1 / 2)) =
      .Calc (.Sum (.Value (.Length (Length.px 1))) (.Value (.Percentage (1 / 2)))) := by
  obtain ⟨h1, h2, h3, h4, h5⟩ := c6_lp_fold_rules
  rw [h4 (Length.px 1) (1 / 2)
    (by norm_num [Length.px, Length.eqNum_abs, AbsoluteLength.val])
    (by norm_num)]
  norm_num [Length.px, Length.ltNum_abs, AbsoluteLength.val]

/-- C9: totality of the fold/build addition — at the computable fuel bound
`phiA`/`phiR` the fuel-indexed recursion always returns a value (never
exhausts), for every pair of `Length` operands and every pair of
`LengthPercentage` operands; the fuel-free wrappers `Length.add` and
`LengthPercentage.add` are exactly those values. -/
theorem c9_add_total :
    ∀ (x y : Length) (p q : LengthPercentage),
      (Length.addRecF (Length.phiR x y) x y).isSome ∧
      (Length.addF (Length.phiA x y) x y).isSome ∧
      Length.addF (Length.phiA x y) x y = some (Length.add x y) ∧
      (LengthPercentage.addRecF (LengthPercentage.phiR p q) p q).isSome ∧
      (LengthPercentage.addF (LengthPercentage.phiA p q) p q).isSome ∧
      LengthPercentage.addF (LengthPercentage.phiA p q) p q =
        some (LengthPercentage.add p q) := by
  intro x y p q
  exact ⟨(Length.addSuff _).1 x y (le_refl _), (Length.addSuff _).2.2 x y (le_refl _),
    Length.addF_phiA x y, (LengthPercentage.addSuff_lp _).1 p q (le_refl _),
    (LengthPercentage.addSuff_lp _).2.2 p q (le_refl _), LengthPercentage.addF_phiA_lp p q⟩

set_option maxHeartbeats 1000000 in
/-- Lowercasing the canonical unit suffixes is the identity (the serializer
emits lowercase; the parser's case-insensitive match lowercases first). -/
theorem unit_toLower_eval :
    lowerStr "px" = "px" ∧ lowerStr "in" = "in" ∧ lowerStr "cm" = "cm" ∧
    lowerStr "mm" = "mm" ∧ lowerStr "q" = "q" ∧ lowerStr "pt" = "pt" ∧
    lowerStr "pc" = "pc" ∧ lowerStr "em" = "em" ∧ lowerStr "ex" = "ex" ∧
    lowerStr "ch" = "ch" ∧ lowerStr "rem" = "rem" ∧ lowerStr "vw" = "vw" ∧
    lowerStr "vh" = "vh" ∧ lowerStr "vmin" = "vmin" ∧ lowerStr "vmax" = "vmax" := by
  refine ⟨?_, ?_, ?_, ?_, ?_, ?_, ?_, ?_, ?_, ?_, ?_, ?_, ?_, ?_, ?_⟩ <;> decide

/-- C2 counterexample: the zero-magnitude literal `0in` serializes as the bare
`0`, which re-parses as the number token `0` and hence as `Length::px(0)` —
numerically zero but a different unit, so the round trip does not reproduce
an equal value. -/
theorem c2_counterexample :
    Length.roundTrip (.Absolute (.In 0)) = some (Length.px 0) ∧
    Length.px 0 ≠ .Absolute (.In 0) := by
  constructor
  · rfl
  · simp [Length.px]

/-- Evaluation of the unit table on each canonical lowercase suffix. -/
theorem parseDim_eval (v : ℚ) :
    Length.parseDim (.dimension v "px") = some (.Absolute (.Px v)) ∧
    Length.parseDim (.dimension v "in") = some (.Absolute (.In v)) ∧
    Length.parseDim (.dimension v "cm") = some (.Absolute (.Cm v)) ∧
    Length.parseDim (.dimension v "mm") = some (.Absolute (.Mm v)) ∧
    Length.parseDim (.dimension v "q") = some (.Absolute (.Q v)) ∧
    Length.parseDim (.dimension v "pt") = some (.Absolute (.Pt v)) ∧
    Length.parseDim (.dimension v "pc") = some (.Absolute (.Pc v)) ∧
    Length.parseDim (.dimension v "em") = some (.Relative (.Em v)) ∧
    Length.parseDim (.dimension v "ex") = some (.Relative (.Ex v)) ∧
    Length.parseDim (.dimension v "ch") = some (.Relative (.Ch v)) ∧
    Length.parseDim (.dimension v "rem") = some (.Relative (.Rem v)) ∧
    Length.parseDim (.dimension v "vw") = some (.Relative (.Vw v)) ∧
    Length.parseDim (.dimension v "vh") = some (.Relative (.Vh v)) ∧
    Length.parseDim (.dimension v "vmin") = some (.Relative (.Vmin v)) ∧
    Length.parseDim (.dimension v "vmax") = some (.Relative (.Vmax v)) := by
  obtain ⟨e1, e2, e3, e4, e5, e6, e7, e8, e9, e10, e11, e12, e13, e14, e15⟩ :=
    unit_toLower_eval
  refine ⟨?_, ?_, ?_, ?_, ?_, ?_, ?_, ?_, ?_, ?_, ?_, ?_, ?_, ?_, ?_⟩ <;>
    (simp only [Length.parseDim, Length.unitTable, e1, e2, e3, e4, e5, e6, e7, e8, e9,
      e10, e11, e12, e13, e14, e15]; rfl)

set_option maxHeartbeats 1000000 in
/-- C2 (amended): the round trip `parse(to_css(v))` at the tokenizer boundary
reproduces an equal value for every absolute-unit literal with nonzero
magnitude, every relative-unit literal with nonzero magnitude, and every px
literal including zero; a zero-magnitude literal of any other unit instead
re-parses as `Length::px(0)`. -/
theorem c2_round_trip_amended :
    (∀ a : AbsoluteLength, a.val ≠ 0 →
      Length.roundTrip (.Absolute a) = some (.Absolute a)) ∧
    (∀ r : RelativeLength, r.val ≠ 0 →
      Length.roundTrip (.Relative r) = some (.Relative r)) ∧
    (∀ v : ℚ, Length.roundTrip (Length.px v) = some (Length.px v)) := by
  have hpd := parseDim_eval
  refine ⟨?_, ?_, ?_⟩
  · intro a h
    cases a <;>
      (simp [AbsoluteLength.val] at h;
       simp [Length.roundTrip, Length.toTok, AbsoluteLength.to_unit_value, h,
         Length.parseInput, (hpd _).1, (hpd _).2.1, (hpd _).2.2.1, (hpd _).2.2.2.1,
         (hpd _).2.2.2.2.1, (hpd _).2.2.2.2.2.1, (hpd _).2.2.2.2.2.2.1])
  · intro r h
    cases r <;>
      (simp [RelativeLength.val] at h;
       simp [Length.roundTrip, Length.toTok, RelativeLength.to_unit_value, h,
         Length.parseInput, (hpd _).2.2.2.2.2.2.2.1, (hpd _).2.2.2.2.2.2.2.2.1,
         (hpd _).2.2.2.2.2.2.2.2.2.1, (hpd _).2.2.2.2.2.2.2.2.2.2.1,
         (hpd _).2.2.2.2.2.2.2.2.2.2.2.1, (hpd _).2.2.2.2.2.2.2.2.2.2.2.2.1,
         (hpd _).2.2.2.2.2.2.2.2.2.2.2.2.2.1, (hpd _).2.2.2.2.2.2.2.2.2.2.2.2.2.2])
  · intro v
    by_cases hv : v = 0
    · subst hv
      simp [Length.roundTrip, Length.toTok, Length.px, AbsoluteLength.to_unit_value,
        Length.parseInput, Length.parseDim]
    · simp [Length.roundTrip, Length.toTok, Length.px, AbsoluteLength.to_unit_value, hv,
        Length.parseInput, (parseDim_eval v).1]

/-- C2 witness: the amended round trip at `2in`, `-1/2 vmin` and `0px`. -/
theorem c2_round_trip_witness :
    Length.roundTrip (.Absolute (.In 2)) = some (.Absolute (.In 2)) ∧
    Length.roundTrip (.Relative (.Vmin (-(1 / 2)))) =
      some (.Relative (.Vmin (-(1 / 2)))) ∧
    Length.roundTrip (Length.px 0) = some (Length.px 0) := by
  obtain ⟨habs, hrel, hpx⟩ := c2_round_trip_amended
  exact ⟨habs (.In 2) (by norm_num [AbsoluteLength.val]),
    hrel (.Vmin (-(1 / 2))) (by norm_num [RelativeLength.val]), hpx 0⟩

/-- The unit table never produces a calc variant. -/
theorem Length.unitTable_not_calc (s : String) (v : ℚ) (l : Length)
    (h : Length.unitTable s v = some l) : l.isCalcValue = false := by
  unfold Length.unitTable at h
  by_cases h0 : s = "px"
  · rw [if_pos h0] at h
    injection h with heq
    subst heq
    rfl
  · rw [if_neg h0] at h
    by_cases h1 : s = "in"
    · rw [if_pos h1] at h
      injection h with heq
      subst heq
      rfl
    · rw [if_neg h1] at h
      by_cases h2 : s = "cm"
      · rw [if_pos h2] at h
        injection h with heq
        subst heq
        rfl
      · rw [if_neg h2] at h
        by_cases h3 : s = "mm"
        · rw [if_pos h3] at h
          injection h with heq
          subst heq
          rfl
        · rw [if_neg h3] at h
          by_cases h4 : s = "q"
          · rw [if_pos h4] at h
            injection h with heq
            subst heq
            rfl
          · rw [if_neg h4] at h
            by_cases h5 : s = "pt"
            · rw [if_pos h5] at h
              injection h with heq
              subst heq
              rfl
            · rw [if_neg h5] at h
              by_cases h6 : s = "pc"
              · rw [if_pos h6] at h
                injection h with heq
                subst heq
                rfl
              · rw [if_neg h6] at h
                by_cases h7 : s = "em"
                · rw [if_pos h7] at h
                  injection h with heq
                  subst heq
                  rfl
                · rw [if_neg h7] at h
                  by_cases h8 : s = "ex"
                  · rw [if_pos h8] at h
                    injection h with heq
                    subst heq
                    rfl
                  · rw [if_neg h8] at h
                    by_cases h9 : s = "ch"
                    · rw [if_pos h9] at h
                      injection h with heq
                      subst heq
                      rfl
                    · rw [if_neg h9] at h
                      by_cases h10 : s = "rem"
                      · rw [if_pos h10] at h
                        injection h with heq
                        subst heq
                        rfl
                      · rw [if_neg h10] at h
                        by_cases h11 : s = "vw"
                        · rw [if_pos h11] at h
                          injection h with heq
                          subst heq
                          rfl
                        · rw [if_neg h11] at h
                          by_cases h12 : s = "vh"
                          · rw [if_pos h12] at h
                            injection h with heq
                            subst heq
                            rfl
                          · rw [if_neg h12] at h
                            by_cases h13 : s = "vmin"
                            · rw [if_pos h13] at h
                              injection h with heq
                              subst heq
                              rfl
                            · rw [if_neg h13] at h
                              by_cases h14 : s = "vmax"
                              · rw [if_pos h14] at h
                                injection h with heq
                                subst heq
                                rfl
                              · rw [if_neg h14] at h
                                exact absurd h (by simp)

/-- The token match never produces a calc variant. -/
theorem Length.parseDim_not_calc (t : CssTok) (l : Length)
    (h : Length.parseDim t = some l) : l.isCalcValue = false := by
  cases t with
  | dimension v u =>
    simp only [Length.parseDim] at h
    exact Length.unitTable_not_calc _ _ _ h
  | number v =>
    simp only [Length.parseDim] at h
    obtain rfl : Length.px v = l := by simpa using h
    rfl
  | percent v => simp [Length.parseDim] at h
  | other => simp [Length.parseDim] at h

/-- C7: parsing never returns a `Calc` variant that wraps a single-leaf
`Calc::Value` node — a successful `calc()` parse whose sole content is one
literal is unwrapped to that literal — for both `Length::parse` and
`LengthPercentage::parse`; and parsing `calc(2px)` yields exactly the value
of parsing `2px` directly. -/
theorem c7_parse_no_degenerate_calc :
    (∀ (i : ParseInput) (r : Length),
      Length.parseInput i = some r → r.isCalcValue = false) ∧
    (∀ (i : ParseInput) (r : LengthPercentage),
      LengthPercentage.parseInput i = some r → r.isCalcValue = false) ∧
    Length.parseInput (.calcExpr (.leaf (.dimension 2 "px"))) =
      Length.parseInput (.tok (.dimension 2 "px")) ∧
    LengthPercentage.parseInput (.calcExpr (.leaf (.dimension 2 "px"))) =
      LengthPercentage.parseInput (.tok (.dimension 2 "px")) := by
  refine ⟨?_, ?_, rfl, rfl⟩
  · intro i r h
    cases i with
    | tok t => exact Length.parseDim_not_calc t r h
    | calcExpr b =>
      cases b with
      | leaf t =>
        simp only [Length.parseInput, CalcSrc.toCalcLength] at h
        rcases hp : Length.parseDim t with _ | l
        · rw [hp] at h; simp at h
        · rw [hp] at h
          simp only [Option.map_some'] at h
          obtain rfl : l = r := by simpa using h
          exact Length.parseDim_not_calc t l hp
      | sum s1 s2 =>
        simp only [Length.parseInput, CalcSrc.toCalcLength] at h
        rcases h1 : s1.toCalcLength with _ | c1 <;> rw [h1] at h
        · simp at h
        · rcases h2 : s2.toCalcLength with _ | c2 <;> rw [h2] at h
          · simp at h
          · simp only at h
            obtain rfl : Length.Calc (.Sum c1 c2) = r := by simpa using h
            rfl
  · intro i r h
    cases i with
    | tok t =>
      simp only [LengthPercentage.parseInput] at h
      rcases hp : Length.parseDim t with _ | l <;> rw [hp] at h
      · cases t with
        | percent v =>
          obtain rfl : LengthPercentage.Percentage v = r := by simpa using h
          rfl
        | number v => simp at h
        | dimension v u => simp at h
        | other => simp at h
      · obtain rfl : LengthPercentage.Length l = r := by simpa using h
        rfl
    | calcExpr b =>
      cases b with
      | leaf t =>
        simp only [LengthPercentage.parseInput, CalcSrc.toCalcLP] at h
        rcases hp : Length.parseDim t with _ | l <;> rw [hp] at h
        · cases t with
          | percent v =>
            obtain rfl : LengthPercentage.Percentage v = r := by simpa using h
            rfl
          | number v => simp at h
          | dimension v u => simp at h
          | other => simp at h
        · simp only at h
          obtain rfl : LengthPercentage.Length l = r := by simpa using h
          rfl
      | sum s1 s2 =>
        simp only [LengthPercentage.parseInput, CalcSrc.toCalcLP] at h
        rcases h1 : s1.toCalcLP with _ | c1 <;> rw [h1] at h
        · simp at h
        · rcases h2 : s2.toCalcLP with _ | c2 <;> rw [h2] at h
          · simp at h
          · simp only at h
            obtain rfl : LengthPercentage.Calc (.Sum c1 c2) = r := by simpa using h
            rfl

/-- C7 witness: parsing the plain token `1px` yields a literal, which is not
a degenerate calc value. -/
theorem c7_parse_no_degenerate_calc_witness : (Length.px 1).isCalcValue = false :=
  c7_parse_no_degenerate_calc.1 (.tok (.dimension 1 "px")) (Length.px 1) rfl

/-- The serialized magnitude of an absolute literal is its stored value. -/
theorem AbsoluteLength.unit_value_fst (a : AbsoluteLength) :
    a.to_unit_value.1 = a.val := by cases a <;> rfl

/-- The serialized magnitude of a relative literal is its stored value. -/
theorem RelativeLength.unit_value_fst_rel (r : RelativeLength) :
    r.to_unit_value.1 = r.val := by cases r <;> rfl

/-- A literal whose magnitude is zero serializes as the bare `0`. -/
theorem Length.toCssStr_lit_zero (l : Length) (v : ℚ) (h : l.litVal = some v)
    (hv : v = 0) : l.toCssStr = "0" := by
  subst hv
  cases l with
  | Absolute a =>
    simp only [Length.litVal, Option.some.injEq] at h
    simp [Length.toCssStr, litCss, AbsoluteLength.unit_value_fst, h]
  | Relative r =>
    simp only [Length.litVal, Option.some.injEq] at h
    simp [Length.toCssStr, litCss, RelativeLength.unit_value_fst_rel, h]
  | Calc c => simp [Length.litVal] at h

/-- The `== 0.0` test through the literal magnitude. -/
theorem Length.eqNum_of_litVal (l : Length) (v q : ℚ) (h : l.litVal = some v) :
    Length.eqNum l q = decide (v = q) := by
  cases l with
  | Absolute a =>
    simp only [Length.litVal, Option.some.injEq] at h
    rw [Length.eqNum_abs, h]
  | Relative r =>
    simp only [Length.litVal, Option.some.injEq] at h
    rw [Length.eqNum_rel, h]
  | Calc c => simp [Length.litVal] at h

/-- The `< 0.0` test through the literal magnitude. -/
theorem Length.ltNum_of_litVal (l : Length) (v q : ℚ) (h : l.litVal = some v) :
    Length.ltNum l q = decide (v < q) := by
  cases l with
  | Absolute a =>
    simp only [Length.litVal, Option.some.injEq] at h
    rw [Length.ltNum_abs, h]
  | Relative r =>
    simp only [Length.litVal, Option.some.injEq] at h
    rw [Length.ltNum_rel, h]
  | Calc c => simp [Length.litVal] at h

/-- The `> 0.0` test through the literal magnitude. -/
theorem Length.gtNum_of_litVal (l : Length) (v q : ℚ) (h : l.litVal = some v) :
    Length.gtNum l q = decide (q < v) := by
  cases l with
  | Absolute a =>
    simp only [Length.litVal, Option.some.injEq] at h
    rw [Length.gtNum_abs, h]
  | Relative r =>
    simp only [Length.litVal, Option.some.injEq] at h
    rw [Length.gtNum_rel, h]
  | Calc c => simp [Length.litVal] at h

/-- Fold failure on relative literals is symmetric. -/
theorem RelativeLength.add_recursive_symm_none (r1 r2 : RelativeLength)
    (h : r1.add_recursive r2 = none) : r2.add_recursive r1 = none := by
  cases r1 <;> cases r2 <;> simp_all [RelativeLength.add_recursive]

/-- The two build-phase outcomes of a literal pair serialize identically
whenever the operands do not share a strict sign. -/
theorem toCss_build_comm (A B : Length) (va vb : ℚ)
    (hA : A.litVal = some va) (hB : B.litVal = some vb)
    (hpos : ¬(0 < va ∧ 0 < vb)) (hneg : ¬(va < 0 ∧ vb < 0)) :
    (if va = 0 then B else if vb = 0 then A
     else if va < 0 ∧ 0 < vb then Length.Calc (.Sum (.Value B) (.Value A))
     else Length.Calc (.Sum (.Value A) (.Value B))).toCssStr =
    (if vb = 0 then A else if va = 0 then B
     else if vb < 0 ∧ 0 < va then Length.Calc (.Sum (.Value A) (.Value B))
     else Length.Calc (.Sum (.Value B) (.Value A))).toCssStr := by
  rcases lt_trichotomy va 0 with h1 | h1 | h1 <;>
    rcases lt_trichotomy vb 0 with h2 | h2 | h2
  · exact absurd ⟨h1, h2⟩ hneg
  · simp [ne_of_lt h1, h2]
  · simp [ne_of_lt h1, ne_of_gt h2, h1, h2, asymm h2]
  · simp [h1, ne_of_lt h2]
  · rw [if_pos h1, if_pos h2]
    rw [Length.toCssStr_lit_zero B vb hB h2, Length.toCssStr_lit_zero A va hA h1]
  · simp [h1, ne_of_gt h2]
  · simp [ne_of_gt h1, ne_of_lt h2, h1, h2, asymm h1]
  · simp [ne_of_gt h1, h2]
  · exact absurd ⟨h1, h2⟩ hpos

/-- The fuel-free fold wrapper agrees with a uniform fuel-offset fold result. -/
theorem Length.add_recursive_off (x y : Length) (k : ℕ) (hk : k ≤ 324)
    (o : Option Length) (h : ∀ n, Length.addRecF (n + k) x y = some o) :
    Length.add_recursive x y = o := by
  have hge := Length.phiR_ge x y
  have e1 : Length.phiR x y = (Length.phiR x y - k) + k := by omega
  rw [Length.add_recursive, e1, h]
  rfl

/-- A length literal and a percentage serialize identically in either addition
order whenever their magnitudes are not both zero and do not share a strict
sign. -/
theorem lpToCss_build_comm (l : Length) (p va : ℚ) (hl : l.litVal = some va)
    (hz : ¬(va = 0 ∧ p = 0)) (hpos : ¬(0 < va ∧ 0 < p))
    (hneg : ¬(va < 0 ∧ p < 0)) :
    (LengthPercentage.add (.Length l) (.Percentage p)).toCssStr =
    (LengthPercentage.add (.Percentage p) (.Length l)).toCssStr := by
  rw [lpAdd_lenper, lpAdd_perlen, Length.eqNum_of_litVal l va 0 hl,
    Length.ltNum_of_litVal l va 0 hl, Length.gtNum_of_litVal l va 0 hl]
  rcases lt_trichotomy va 0 with h1 | h1 | h1 <;>
    rcases lt_trichotomy p 0 with h2 | h2 | h2
  · exact absurd ⟨h1, h2⟩ hneg
  · simp [ne_of_lt h1, h2]
  · simp [ne_of_lt h1, ne_of_gt h2, h1, h2, asymm h2, asymm h1]
  · simp [h1, ne_of_lt h2]
  · exact absurd ⟨h1, h2⟩ hz
  · simp [h1, ne_of_gt h2]
  · simp [ne_of_gt h1, ne_of_lt h2, h1, h2, asymm h1, asymm h2]
  · simp [ne_of_gt h1, h2]
  · exact absurd ⟨h1, h2⟩ hpos

/-- C3 counterexample: the claim's universal commutative-serialization
statement fails for a same-sign pair whose fold fails: `1em + 1px` does not
fold, yet the two addition orders serialize as `calc(1em + 1px)` and
`calc(1px + 1em)`, which are distinct strings. -/
theorem c3_counterexample :
    Length.add_recursive (.Relative (.Em 1)) (.Absolute (.Px 1)) = none ∧
    (Length.add (.Relative (.Em 1)) (.Absolute (.Px 1))).toCssStr
      = "calc(1em + 1px)" ∧
    (Length.add (.Absolute (.Px 1)) (.Relative (.Em 1))).toCssStr
      = "calc(1px + 1em)" ∧
    ("calc(1em + 1px)" : String) ≠ "calc(1px + 1em)" := by
  refine ⟨?_, ?_, ?_, by decide⟩
  · exact Length.add_recursive_off _ _ 1 (by norm_num) none
      (fun n => Length.addRecF_relabs n _ _)
  · rw [Length.add_relabs]
    norm_num [Length.toCssStr, CalcLength.innerCss, litCss, serializeNum,
      decExp, RelativeLength.to_unit_value, AbsoluteLength.to_unit_value,
      RelativeLength.val, AbsoluteLength.val,
      abs_of_pos (show (0 : ℚ) < 1 by norm_num)]
    rfl
  · rw [Length.add_absrel]
    norm_num [Length.toCssStr, CalcLength.innerCss, litCss, serializeNum,
      decExp, RelativeLength.to_unit_value, AbsoluteLength.to_unit_value,
      RelativeLength.val, AbsoluteLength.val,
      abs_of_pos (show (0 : ℚ) < 1 by norm_num)]
    rfl

/-- C3 (amended): the sign-based swap never triggers when an operand is a
composite calc expression — a calc tree is unordered against a bare number,
so the `< 0.0` and `> 0.0` tests are both false on it; and `add(A, B)` and
`add(B, A)` serialize identically whenever the fold fails on literal operands
whose magnitudes do not share a strict sign (for same-strict-sign pairs the
two orders genuinely differ).  At the `LengthPercentage` level the same holds
for a length literal against a percentage when additionally the two
magnitudes are not both zero. -/
theorem c3_commutative_serialization :
    (∀ (c : CalcLength) (q : ℚ),
      Length.partialCmpNum (.Calc c) q = none ∧
      Length.ltNum (.Calc c) q = false ∧ Length.gtNum (.Calc c) q = false) ∧
    (∀ (A B : Length) (va vb : ℚ), A.litVal = some va → B.litVal = some vb →
      (∀ n : ℕ, Length.addRecF (n + 1) A B = some none) →
      ¬(0 < va ∧ 0 < vb) → ¬(va < 0 ∧ vb < 0) →
      (Length.add A B).toCssStr = (Length.add B A).toCssStr) ∧
    (∀ (l : Length) (p va : ℚ), l.litVal = some va →
      ¬(va = 0 ∧ p = 0) → ¬(0 < va ∧ 0 < p) → ¬(va < 0 ∧ p < 0) →
      (LengthPercentage.add (.Length l) (.Percentage p)).toCssStr =
        (LengthPercentage.add (.Percentage p) (.Length l)).toCssStr) := by
  refine ⟨fun c q => ⟨rfl, rfl, rfl⟩, ?_, ?_⟩
  · intro A B va vb hA hB hnf hpos hneg
    cases A with
    | Calc c => simp [Length.litVal] at hA
    | Absolute a =>
      obtain rfl : a.val = va := by simpa [Length.litVal] using hA
      cases B with
      | Calc c => simp [Length.litVal] at hB
      | Absolute b =>
        have h0 := (Length.addRecF_absabs 0 a b).symm.trans (hnf 0)
        exact absurd h0 (by simp)
      | Relative r =>
        obtain rfl : r.val = vb := by simpa [Length.litVal] using hB
        rw [Length.add_absrel, Length.add_relabs]
        exact toCss_build_comm (.Absolute a) (.Relative r) a.val r.val rfl rfl
          hpos hneg
    | Relative r1 =>
      obtain rfl : r1.val = va := by simpa [Length.litVal] using hA
      cases B with
      | Calc c => simp [Length.litVal] at hB
      | Absolute b =>
        obtain rfl : b.val = vb := by simpa [Length.litVal] using hB
        rw [Length.add_relabs, Length.add_absrel]
        exact toCss_build_comm (.Relative r1) (.Absolute b) r1.val b.val rfl rfl
          hpos hneg
      | Relative r2 =>
        obtain rfl : r2.val = vb := by simpa [Length.litVal] using hB
        have h0 := (Length.addRecF_relrel 0 r1 r2).symm.trans (hnf 0)
        have hrec : r1.add_recursive r2 = none := by
          cases hh : r1.add_recursive r2 with
          | none => rfl
          | some s => rw [hh] at h0; simp at h0
        have hrec2 := RelativeLength.add_recursive_symm_none r1 r2 hrec
        rw [Length.add_relrel_build r1 r2 hrec, Length.add_relrel_build r2 r1 hrec2]
        exact toCss_build_comm (.Relative r1) (.Relative r2) r1.val r2.val rfl rfl
          hpos hneg
  · intro l p va hl hz hpos hneg
    exact lpToCss_build_comm l p va hl hz hpos hneg

/-- C3 witness: a mixed-sign literal pair whose fold fails serializes the
same in both addition orders, at the `Length` and `LengthPercentage` levels. -/
theorem c3_commutative_serialization_witness :
    (Length.add (.Relative (.Em (-1))) (.Absolute (.Px 2))).toCssStr =
      (Length.add (.Absolute (.Px 2)) (.Relative (.Em (-1)))).toCssStr ∧
    (LengthPercentage.add (.Length (Length.px 3)) (.Percentage (-2))).toCssStr =
      (LengthPercentage.add (.Percentage (-2)) (.Length (Length.px 3))).toCssStr := by
  obtain ⟨h1, h2, h3⟩ := c3_commutative_serialization
  constructor
  · exact h2 (.Relative (.Em (-1))) (.Absolute (.Px 2)) (-1) 2 rfl rfl
      (fun n => Length.addRecF_relabs n _ _) (by norm_num) (by norm_num)
  · exact h3 (Length.px 3) (-2) 3 rfl (by norm_num) (by norm_num) (by norm_num)

/-- `Nat.digitChar` never yields a decimal point. -/
theorem digitChar_ne_dot (k : ℕ) : Nat.digitChar k ≠ '.' := by
  rcases Nat.lt_or_ge k 16 with h | h
  · interval_cases k <;> decide
  · have h0 : k ≠ 0 := by omega
    have h1 : k ≠ 1 := by omega
    have h2 : k ≠ 2 := by omega
    have h3 : k ≠ 3 := by omega
    have h4 : k ≠ 4 := by omega
    have h5 : k ≠ 5 := by omega
    have h6 : k ≠ 6 := by omega
    have h7 : k ≠ 7 := by omega
    have h8 : k ≠ 8 := by omega
    have h9 : k ≠ 9 := by omega
    have h10 : k ≠ 10 := by omega
    have h11 : k ≠ 11 := by omega
    have h12 : k ≠ 12 := by omega
    have h13 : k ≠ 13 := by omega
    have h14 : k ≠ 14 := by omega
    have h15 : k ≠ 15 := by omega
    simp only [Nat.digitChar, h0, h1, h2, h3, h4, h5, h6, h7, h8, h9, h10, h11, h12, h13, h14, h15, ite_false]
    decide

/-- Digit accumulation never introduces a decimal point. -/
theorem toDigitsCore_no_dot : ∀ (fuel n : ℕ) (ds : List Char),
    (∀ c ∈ ds, c ≠ '.') → ∀ c ∈ Nat.toDigitsCore 10 fuel n ds, c ≠ '.' := by
  intro fuel
  induction fuel with
  | zero =>
    intro n ds hds c hc
    simp only [Nat.toDigitsCore] at hc
    exact hds c hc
  | succ fuel ih =>
    intro n ds hds c hc
    simp only [Nat.toDigitsCore] at hc
    have hcons : ∀ x ∈ Nat.digitChar (n % 10) :: ds, x ≠ '.' := by
      intro x hx
      rcases List.mem_cons.mp hx with h | h
      · rw [h]; exact digitChar_ne_dot _
      · exact hds x h
    split at hc
    · exact hcons c hc
    · exact ih _ _ hcons c hc

/-- The decimal digits of a natural number contain no decimal point. -/
theorem repr_no_dot (n : ℕ) : '.' ∉ (Nat.repr n).data := by
  intro h
  have h2 : '.' ∈ Nat.toDigitsCore 10 (n + 1) n [] := h
  exact toDigitsCore_no_dot (n + 1) n [] (by simp) '.' h2 rfl

/-- Digit accumulation of a number below `10 ^ m` adds at most `m` digits. -/
theorem toDigitsCore_len : ∀ (m : ℕ), 1 ≤ m → ∀ (fuel n : ℕ) (ds : List Char),
    n < 10 ^ m → (Nat.toDigitsCore 10 fuel n ds).length ≤ m + ds.length := by
  intro m
  induction m with
  | zero => intro h; omega
  | succ m ih =>
    intro _ fuel
    cases fuel with
    | zero =>
      intro n ds hn
      simp only [Nat.toDigitsCore]
      omega
    | succ fuel =>
      intro n ds hn
      simp only [Nat.toDigitsCore]
      split
      · simp only [List.length_cons]
        omega
      · rename_i h0
        have hm : 1 ≤ m := by
          by_contra hm
          have hmz : m = 0 := by omega
          subst hmz
          have h10 : n < 10 := by simpa using hn
          exact h0 (by omega)
        have hn2 : n / 10 < 10 ^ m := by
          rw [pow_succ] at hn
          omega
        have := ih hm fuel (n / 10) (Nat.digitChar (n % 10) :: ds) hn2
        simp only [List.length_cons] at this
        omega

/-- A natural number below `10 ^ m` has at most `m` decimal digits. -/
theorem repr_len_le (m n : ℕ) (hm : 1 ≤ m) (hn : n < 10 ^ m) :
    (Nat.repr n).length ≤ m := by
  have h := toDigitsCore_len m hm (n + 1) n [] hn
  simpa using h

/-- A successful decimal-shift search certifies an integral scaled value. -/
theorem decExp_den : ∀ (f : ℕ) (q : ℚ) (k : ℕ),
    decExp f q = some k → (q * 10 ^ k).den = 1 := by
  intro f
  induction f with
  | zero => intro q k h; simp [decExp] at h
  | succ f ih =>
    intro q k h
    simp only [decExp] at h
    split at h
    · rename_i hden
      obtain rfl : (0 : ℕ) = k := by simpa using h
      simpa using hden
    · rw [Option.map_eq_some'] at h
      obtain ⟨k2, hk2, rfl⟩ := h
      have h2 := ih (q * 10) k2 hk2
      have he : q * 10 * 10 ^ k2 = q * 10 ^ (k2 + 1) := by ring
      rwa [he] at h2

/-- A zero decimal shift is only reported for an already integral value. -/
theorem decExp_zero_den : ∀ (f : ℕ) (q : ℚ), decExp f q = some 0 → q.den = 1 := by
  intro f q h
  cases f with
  | zero => simp [decExp] at h
  | succ f =>
    simp only [decExp] at h
    split at h
    · assumption
    · rw [Option.map_eq_some'] at h
      obtain ⟨k2, hk2, hke⟩ := h
      omega

/-- Digit-assembly shape of `serializeNum` on a pure fraction: a single `0`,
the decimal point, then the padded digits. -/
theorem serializeNum_shape (v : ℚ) (k : ℕ) (hd : decExp 31 v = some k)
    (hk : k ≠ 0)
    (hL : (Nat.repr (v * 10 ^ k).num.natAbs).length ≤ k) :
    ∃ r : List Char,
      (serializeNum v).data =
        (if (v * 10 ^ k).num < 0 then ['-'] else []) ++ '0' :: '.' :: r := by
  set m : ℤ := (v * 10 ^ k).num with hm
  set L : ℕ := (Nat.repr m.natAbs).length with hLdef
  set j : ℕ := k + 1 - L with hj
  have hj1 : 1 ≤ j := by omega
  refine ⟨List.replicate (j - 1) '0' ++ (Nat.repr m.natAbs).data, ?_⟩
  have hrep : List.replicate j '0' = '0' :: List.replicate (j - 1) '0' := by
    conv_lhs => rw [show j = (j - 1) + 1 by omega]
    rw [List.replicate_succ]
  have hlen : (List.replicate j '0' ++ (Nat.repr m.natAbs).data).length = k + 1 := by
    simp only [List.length_append, List.length_replicate]
    have hLd : (Nat.repr m.natAbs).data.length = L := rfl
    omega
  simp only [serializeNum, hd]
  rw [if_neg hk, if_pos (show (Nat.repr m.natAbs).data.length ≤ k from hL)]
  simp only [← hm]
  rw [show (Nat.repr m.natAbs).data.length = L from rfl, ← hj, hlen]
  rw [show k + 1 - k = 1 by omega]
  rw [hrep]
  simp only [List.cons_append, List.take_succ_cons, List.take_zero,
    List.drop_succ_cons, List.drop_zero, String.data_append]
  cases hms : decide (m < 0) with
  | false =>
    have hmf : ¬ m < 0 := by simpa using hms
    rw [if_neg hmf, if_neg hmf]
    rfl
  | true =>
    have hmt : m < 0 := by simpa using hms
    rw [if_pos hmt, if_pos hmt]
    rfl

/-- `serializeNum` of a positive pure fraction starts `0.`. -/
theorem serializeNum_frac_pos (v : ℚ) (k : ℕ) (hd : decExp 31 v = some k)
    (h0 : 0 < v) (h1 : v < 1) :
    ∃ r : List Char, (serializeNum v).data = '0' :: '.' :: r := by
  have hden := decExp_den 31 v k hd
  have hk : k ≠ 0 := by
    intro hk0
    subst hk0
    have hd1 := decExp_zero_den 31 v hd
    have hvint : ((v.num : ℚ)) = v := by
      have h2 := Rat.num_div_den v
      rw [hd1] at h2
      simpa using h2
    have hnum : 0 < v.num := Rat.num_pos.mpr h0
    have hge : (1 : ℚ) ≤ (v.num : ℚ) := by exact_mod_cast hnum
    rw [hvint] at hge
    linarith
  have hmq : (((v * 10 ^ k).num : ℚ)) = v * 10 ^ k := by
    have h2 := Rat.num_div_den (v * 10 ^ k)
    rw [hden] at h2
    simpa using h2
  have hpow : (0 : ℚ) < 10 ^ k := by positivity
  have hm0 : 0 < (v * 10 ^ k).num := Rat.num_pos.mpr (by positivity)
  have hmlt : (v * 10 ^ k).num < (10 : ℤ) ^ k := by
    have hq : v * 10 ^ k < 10 ^ k := by nlinarith
    have h3 : (((v * 10 ^ k).num : ℚ)) < (((10 : ℤ) ^ k : ℤ) : ℚ) := by
      rw [hmq]
      push_cast
      linarith
    exact_mod_cast h3
  have hcast : (((10 : ℕ) ^ k : ℕ) : ℤ) = (10 : ℤ) ^ k := by push_cast; ring
  have hnat : (v * 10 ^ k).num.natAbs < 10 ^ k := by omega
  have hL : (Nat.repr (v * 10 ^ k).num.natAbs).length ≤ k :=
    repr_len_le k _ (by omega) hnat
  obtain ⟨r, hr⟩ := serializeNum_shape v k hd hk hL
  refine ⟨r, ?_⟩
  rw [hr, if_neg (by omega : ¬ (v * 10 ^ k).num < 0)]
  rfl

/-- `serializeNum` of a negative pure fraction starts `-0.`. -/
theorem serializeNum_frac_neg (v : ℚ) (k : ℕ) (hd : decExp 31 v = some k)
    (h0 : -1 < v) (h1 : v < 0) :
    ∃ r : List Char, (serializeNum v).data = '-' :: '0' :: '.' :: r := by
  have hden := decExp_den 31 v k hd
  have hk : k ≠ 0 := by
    intro hk0
    subst hk0
    have hd1 := decExp_zero_den 31 v hd
    have hvint : ((v.num : ℚ)) = v := by
      have h2 := Rat.num_div_den v
      rw [hd1] at h2
      simpa using h2
    have hnum : v.num < 0 := Rat.num_neg.mpr h1
    have hge : (v.num : ℚ) ≤ -1 := by exact_mod_cast (show v.num ≤ -1 by omega)
    rw [hvint] at hge
    linarith
  have hmq : (((v * 10 ^ k).num : ℚ)) = v * 10 ^ k := by
    have h2 := Rat.num_div_den (v * 10 ^ k)
    rw [hden] at h2
    simpa using h2
  have hpow : (0 : ℚ) < 10 ^ k := by positivity
  have hm0 : (v * 10 ^ k).num < 0 :=
    Rat.num_neg.mpr (mul_neg_of_neg_of_pos h1 hpow)
  have hmgt : -((10 : ℤ) ^ k) < (v * 10 ^ k).num := by
    have hq : -((10 : ℚ) ^ k) < v * 10 ^ k := by nlinarith
    have h3 : ((-((10 : ℤ) ^ k) : ℤ) : ℚ) < (((v * 10 ^ k).num : ℤ) : ℚ) := by
      rw [hmq]
      push_cast
      linarith
    exact_mod_cast h3
  have hcast : (((10 : ℕ) ^ k : ℕ) : ℤ) = (10 : ℤ) ^ k := by push_cast; ring
  have hnat : (v * 10 ^ k).num.natAbs < 10 ^ k := by omega
  have hL : (Nat.repr (v * 10 ^ k).num.natAbs).length ≤ k :=
    repr_len_le k _ (by omega) hnat
  obtain ⟨r, hr⟩ := serializeNum_shape v k hd hk hL
  refine ⟨r, ?_⟩
  rw [hr, if_pos hm0]
  rfl

/-- The rendered form of a positive pure-fraction literal: leading zero
stripped, decimal point kept, unit appended. -/
theorem litCss_frac_pos (v : ℚ) (u : String) (h0 : 0 < v) (h1 : v < 1)
    (r : List Char) (hr : (serializeNum v).data = '0' :: '.' :: r) :
    litCss v u = ⟨'.' :: (r ++ u.data)⟩ := by
  unfold litCss
  rw [if_neg (ne_of_gt h0), if_pos (by rw [abs_of_pos h0]; exact h1),
    if_neg (by linarith : ¬ v < 0)]
  rw [String.data_append, hr]
  simp only [List.cons_append]
  simp [List.dropWhile, List.asString]

/-- The rendered form of a negative pure-fraction literal: sign kept, leading
zero stripped, decimal point kept, unit appended. -/
theorem litCss_frac_neg (v : ℚ) (u : String) (h0 : -1 < v) (h1 : v < 0)
    (r : List Char) (hr : (serializeNum v).data = '-' :: '0' :: '.' :: r) :
    litCss v u = ⟨'-' :: '.' :: (r ++ u.data)⟩ := by
  unfold litCss
  rw [if_neg (ne_of_lt h1), if_pos (by rw [abs_of_neg h1]; linarith),
    if_pos h1]
  rw [String.data_append, hr]
  simp only [List.cons_append]
  rw [show trimDashZero ('-' :: '0' :: '.' :: (r ++ u.data)) =
    '.' :: (r ++ u.data) from rfl]
  rfl

/-- The rendered form of a nonzero integral literal: optional sign, bare
digits, unit; no decimal point is produced. -/
theorem litCss_int (n : ℤ) (hn : n ≠ 0) (u : String) :
    litCss (n : ℚ) u = (if n < 0 then "-" else "") ++ n.natAbs.repr ++ u := by
  have habs : (1 : ℚ) ≤ |(n : ℚ)| := by
    have h1 : 1 ≤ |n| := Int.one_le_abs hn
    have h2 : ((|n| : ℤ) : ℚ) = |(n : ℚ)| := by push_cast; ring
    rw [← h2]
    exact_mod_cast h1
  have hne : ((n : ℚ)) ≠ 0 := by exact_mod_cast hn
  unfold litCss
  rw [if_neg hne, if_neg (by push_neg; linarith)]
  have hd : decExp 31 ((n : ℚ)) = some 0 := by
    simp only [decExp]
    rw [if_pos (Rat.den_intCast n)]
  simp only [serializeNum, hd]
  simp only [if_true]
  have hnum : ((n : ℚ) * 10 ^ 0).num = n := by
    simp [Rat.num_intCast]
  rw [hnum]

/-- C8: minimal serialization of literals — every literal with magnitude
exactly zero renders as the bare string `0` regardless of unit; a nonzero
integral magnitude renders, in every unit, as an optional sign followed by
the bare digits and the unit, and the digit string never contains a decimal
point; a magnitude with absolute value under one renders, in every unit,
with the formatter's leading `0` before the decimal point stripped while a
negative sign is retained; and the concrete cases: `0.5px` renders `.5px`,
`-0.5px` renders `-.5px`, `0px` renders `0`, `2px` renders `2px`. -/
theorem c8_minimal_serialization :
    (∀ a : AbsoluteLength, a.val = 0 → Length.toCssStr (.Absolute a) = "0") ∧
    (∀ r : RelativeLength, r.val = 0 → Length.toCssStr (.Relative r) = "0") ∧
    (∀ n : ℕ, '.' ∉ (Nat.repr n).data) ∧
    (∀ n : ℤ, n ≠ 0 → ∀ a : AbsoluteLength, a.val = (n : ℚ) →
      Length.toCssStr (.Absolute a) =
        (if n < 0 then "-" else "") ++ n.natAbs.repr ++ a.to_unit_value.2) ∧
    (∀ n : ℤ, n ≠ 0 → ∀ r : RelativeLength, r.val = (n : ℚ) →
      Length.toCssStr (.Relative r) =
        (if n < 0 then "-" else "") ++ n.natAbs.repr ++ r.to_unit_value.2) ∧
    (∀ (v : ℚ) (k : ℕ), decExp 31 v = some k → 0 < v → v < 1 →
      ∃ t : List Char, (serializeNum v).data = '0' :: '.' :: t ∧
        (∀ a : AbsoluteLength, a.val = v →
          Length.toCssStr (.Absolute a) = ⟨'.' :: (t ++ a.to_unit_value.2.data)⟩) ∧
        (∀ r : RelativeLength, r.val = v →
          Length.toCssStr (.Relative r) = ⟨'.' :: (t ++ r.to_unit_value.2.data)⟩)) ∧
    (∀ (v : ℚ) (k : ℕ), decExp 31 v = some k → -1 < v → v < 0 →
      ∃ t : List Char, (serializeNum v).data = '-' :: '0' :: '.' :: t ∧
        (∀ a : AbsoluteLength, a.val = v →
          Length.toCssStr (.Absolute a) = ⟨'-' :: '.' :: (t ++ a.to_unit_value.2.data)⟩) ∧
        (∀ r : RelativeLength, r.val = v →
          Length.toCssStr (.Relative r) = ⟨'-' :: '.' :: (t ++ r.to_unit_value.2.data)⟩)) ∧
    Length.toCssStr (Length.px (1 / 2)) = ".5px" ∧
    Length.toCssStr (Length.px (-(1 / 2))) = "-.5px" ∧
    Length.toCssStr (Length.px 0) = "0" ∧
    Length.toCssStr (Length.px 2) = "2px" := by
  refine ⟨?_, ?_, repr_no_dot, ?_, ?_, ?_, ?_, ?_, ?_, ?_, ?_⟩
  · intro a h
    cases a <;>
      (simp [AbsoluteLength.val] at h;
       simp [Length.toCssStr, AbsoluteLength.to_unit_value, litCss, h])
  · intro r h
    cases r <;>
      (simp [RelativeLength.val] at h;
       simp [Length.toCssStr, RelativeLength.to_unit_value, litCss, h])
  · intro n hn a ha
    simp only [Length.toCssStr]
    rw [AbsoluteLength.unit_value_fst, ha]
    exact litCss_int n hn _
  · intro n hn r hr
    simp only [Length.toCssStr]
    rw [RelativeLength.unit_value_fst_rel, hr]
    exact litCss_int n hn _
  · intro v k hd h0 h1
    obtain ⟨t, ht⟩ := serializeNum_frac_pos v k hd h0 h1
    refine ⟨t, ht, ?_, ?_⟩
    · intro a ha
      simp only [Length.toCssStr]
      rw [AbsoluteLength.unit_value_fst, ha]
      exact litCss_frac_pos v _ h0 h1 t ht
    · intro r hr
      simp only [Length.toCssStr]
      rw [RelativeLength.unit_value_fst_rel, hr]
      exact litCss_frac_pos v _ h0 h1 t ht
  · intro v k hd h0 h1
    obtain ⟨t, ht⟩ := serializeNum_frac_neg v k hd h0 h1
    refine ⟨t, ht, ?_, ?_⟩
    · intro a ha
      simp only [Length.toCssStr]
      rw [AbsoluteLength.unit_value_fst, ha]
      exact litCss_frac_neg v _ h0 h1 t ht
    · intro r hr
      simp only [Length.toCssStr]
      rw [RelativeLength.unit_value_fst_rel, hr]
      exact litCss_frac_neg v _ h0 h1 t ht
  · norm_num [Length.toCssStr, Length.px, AbsoluteLength.to_unit_value, litCss,
      serializeNum, decExp, abs_of_pos (show (0 : ℚ) < 1 / 2 by norm_num)]
    rfl
  · norm_num [Length.toCssStr, Length.px, AbsoluteLength.to_unit_value, litCss,
      serializeNum, decExp, abs_of_neg (show (-(1 / 2) : ℚ) < 0 by norm_num)]
    rfl
  · norm_num [Length.toCssStr, Length.px, AbsoluteLength.to_unit_value, litCss]
  · norm_num [Length.toCssStr, Length.px, AbsoluteLength.to_unit_value, litCss,
      serializeNum, decExp, abs_of_pos (show (0 : ℚ) < 2 by norm_num)]
    rfl

/-- C8 witness: the zero rule at `0em`, the integral rule at `-3cm`, the
positive-fraction rule at `0.05px`, and the negative-fraction rule at
`-0.25em`. -/
theorem c8_minimal_serialization_witness :
    Length.toCssStr (.Relative (.Em 0)) = "0" ∧
    Length.toCssStr (.Absolute (.Cm ((-3 : ℤ) : ℚ))) = "-3cm" ∧
    (∃ t : List Char, (serializeNum ((1 : ℚ) / 20)).data = '0' :: '.' :: t ∧
      Length.toCssStr (.Absolute (.Px ((1 : ℚ) / 20))) = ⟨'.' :: (t ++ "px".data)⟩) ∧
    (∃ t : List Char, (serializeNum (-(1 : ℚ) / 4)).data = '-' :: '0' :: '.' :: t ∧
      Length.toCssStr (.Relative (.Em (-(1 : ℚ) / 4))) = ⟨'-' :: '.' :: (t ++ "em".data)⟩) := by
  obtain ⟨hza, hzr, hdot, hia, hir, hfp, hfn, h1, h2, h3, h4⟩ := c8_minimal_serialization
  refine ⟨hzr (.Em 0) rfl, ?_, ?_, ?_⟩
  · have h := hia (-3) (by norm_num) (.Cm ((-3 : ℤ) : ℚ)) rfl
    rw [h]
    rfl
  · obtain ⟨t, ht, ha, _⟩ := hfp ((1 : ℚ) / 20) 2 (by norm_num [decExp])
      (by norm_num) (by norm_num)
    exact ⟨t, ht, ha (.Px ((1 : ℚ) / 20)) rfl⟩
  · obtain ⟨t, ht, _, hr⟩ := hfn (-(1 : ℚ) / 4) 2 (by norm_num [decExp])
      (by norm_num) (by norm_num)
    exact ⟨t, ht, hr (.Em (-(1 : ℚ) / 4)) rfl⟩

/-- C10: IEEE negative zero — over the `Fz` magnitude model, `-0.0` is a
datum distinct from `+0.0` yet `== 0.0` under the IEEE equality the source's
zero tests use; hence a `-0.0` literal serializes as the bare `0` with no
sign and no unit for every unit string, the serializer agrees with the
rational model on every nonzero magnitude, and a `-0.0` operand is treated
as the additive identity by the identity-elision step of `add` on either
side. -/
theorem c10_negative_zero :
    ((Fz.zero true : Fz) ≠ .zero false) ∧
    f32eq (.zero true) (.zero false) = true ∧
    (∀ u : String, litCssF (.zero true) u = "0") ∧
    (∀ v : ℚ, v ≠ 0 → ∀ u : String, litCssF (.num v) u = litCss v u) ∧
    (∀ b : Fz, addElideF (.zero true) b = some b) ∧
    (∀ a : Fz, f32eq a (.zero false) = false → addElideF a (.zero true) = some a) := by
  refine ⟨by decide, by decide, fun u => rfl, ?_, fun b => rfl, ?_⟩
  · intro v hv u
    simp [litCssF, litCss, f32eq, Fz.val, hv]
  · intro a h
    simp only [addElideF, h, Bool.false_eq_true, if_false,
      show f32eq (Fz.zero true) (Fz.zero false) = true by decide, if_true]

/-- C10 witness: a nonzero magnitude is not `== 0.0`, and elision returns it
unchanged against a `-0.0` right operand. -/
theorem c10_negative_zero_witness :
    f32eq (.num 5) (.zero false) = false ∧
    addElideF (.num 5) (.zero true) = some (.num 5) := by
  obtain ⟨h1, h2, h3, h4, h5, h6⟩ := c10_negative_zero
  exact ⟨by decide, h6 (.num 5) (by decide)⟩
